import Mathlib

/-!
Verification of the Synchronization Engine of the `genie` desktop app
(`src/desktop/src-tauri/src/api.rs`, `storage.rs`, `models.rs`).

Shallow embedding conventions:
* `chrono::DateTime<Utc>` timestamps are modelled as `Nat` (only ordering and
  equality of timestamps are ever used by the engine).
* `String` ids stay `String`; UUIDv4 generation (`uuid::Uuid::new_v4`) is
  modelled by a caller-supplied supply `fresh : Nat → String` together with a
  counter, so freshness is an explicit hypothesis where a theorem needs it.
* The ephemeral `HashMap<String, &T>` keyed by entity id is modelled as the
  list of (not yet processed) snapshot entities; `HashMap::get` becomes
  `lookupId`, `HashMap::remove` becomes `eraseId` (a key occurs at most once
  in the map, so removing every occurrence is the same operation).
* `serde_json::to_value` comparison of two entities is structural equality:
  serialization of `Task` / `PomodoroSession` writes every field and is
  injective, so `local_json != remote_json` iff the records differ.
* `rusqlite` storage mutations (`update_task`, `create_task`, ...) are
  modelled as pure functions on the table contents (a `List` of rows); each
  of them stamps `updated_at` with the current wall clock `now`, exactly as
  the SQL in `storage.rs` does.
-/

namespace Genie

/-! ## Data model (`models.rs`) -/

inductive TaskStatus
  | pending
  | inProgress
  | completed
  | cancelled
deriving DecidableEq

inductive TaskPriority
  | low
  | medium
  | high
  | urgent
deriving DecidableEq

/-- `models.rs` `Task`; `due_date`, `created_at`, `updated_at` timestamps as `Nat`. -/
structure Task where
  id : String
  title : String
  description : Option String
  status : TaskStatus
  priority : TaskPriority
  due_date : Option Nat
  tags : List String
  estimated_pomodoros : Nat
  completed_pomodoros : Nat
  created_at : Nat
  updated_at : Nat
deriving DecidableEq

/-- `models.rs` `CreateTaskRequest`. -/
structure CreateTaskRequest where
  title : String
  description : Option String
  priority : Option TaskPriority
  due_date : Option Nat
  tags : Option (List String)
  estimated_pomodoros : Option Nat
deriving DecidableEq

/-- `models.rs` `UpdateTaskRequest`. -/
structure UpdateTaskRequest where
  title : Option String
  description : Option String
  status : Option TaskStatus
  priority : Option TaskPriority
  due_date : Option Nat
  tags : Option (List String)
  estimated_pomodoros : Option Nat
  completed_pomodoros : Option Nat
deriving DecidableEq

inductive SessionType
  | work
  | shortBreak
  | longBreak
deriving DecidableEq

inductive SessionState
  | ready
  | running
  | paused
  | completed
deriving DecidableEq

/-- `models.rs` `PomodoroSession`. -/
structure PomodoroSession where
  id : String
  task_id : Option String
  session_type : SessionType
  state : SessionState
  duration_minutes : Nat
  remaining_seconds : Nat
  started_at : Option Nat
  paused_at : Option Nat
  completed_at : Option Nat
  rating : Option Nat
  notes : Option String
  created_at : Nat
  updated_at : Nat
deriving DecidableEq

/-- `models.rs` `UpdateSessionRequest`. -/
structure UpdateSessionRequest where
  state : Option SessionState
  remaining_seconds : Option Nat
  started_at : Option Nat
  paused_at : Option Nat
  completed_at : Option Nat
  rating : Option Nat
  notes : Option String
deriving DecidableEq

/-- `models.rs` `Settings` (singleton aggregate; `sound_volume` is an `f32`
that the sync engine only carries around, never computes with). -/
structure Settings where
  work_duration_minutes : Nat
  short_break_duration_minutes : Nat
  long_break_duration_minutes : Nat
  long_break_interval : Nat
  auto_start_breaks : Bool
  auto_start_pomodoros : Bool
  enable_notifications : Bool
  enable_sounds : Bool
  sound_volume : Float
  work_end_sound : String
  break_end_sound : String
  minimize_to_tray : Bool
  start_minimized : Bool
  close_to_tray : Bool
  enable_startup : Bool
  theme : String
  language : String

/-- `models.rs` `SyncResult`; `last_sync` wall-clock as `Nat`. -/
structure SyncResult where
  success : Bool
  synced_tasks : Nat
  synced_sessions : Nat
  conflicts : Nat
  errors : List String
  last_sync : Nat
deriving DecidableEq

/-! ## Local store operations (`storage.rs`) -/

/-- `storage.rs` `update_task`: the dynamic SQL `UPDATE tasks SET ...` sets a
column only when the request field is `Some`, always stamps
`updated_at = now`, and never touches `id` or `created_at`. -/
def update_task (t : Task) (req : UpdateTaskRequest) (now : Nat) : Task :=
  { t with
    title := req.title.getD t.title
    description := match req.description with
      | some d => some d
      | none => t.description
    status := req.status.getD t.status
    priority := req.priority.getD t.priority
    due_date := match req.due_date with
      | some d => some d
      | none => t.due_date
    tags := req.tags.getD t.tags
    estimated_pomodoros := req.estimated_pomodoros.getD t.estimated_pomodoros
    completed_pomodoros := req.completed_pomodoros.getD t.completed_pomodoros
    updated_at := now }

/-- `storage.rs` `create_task`: fresh uuid id, status `pending`,
`completed_pomodoros = 0`, defaults for missing optional fields, both
timestamps stamped with `now`. -/
def create_task (req : CreateTaskRequest) (newId : String) (now : Nat) : Task :=
  { id := newId
    title := req.title
    description := req.description
    status := TaskStatus.pending
    priority := req.priority.getD TaskPriority.medium
    due_date := req.due_date
    tags := req.tags.getD []
    estimated_pomodoros := req.estimated_pomodoros.getD 1
    completed_pomodoros := 0
    created_at := now
    updated_at := now }

/-- `storage.rs` `update_pomodoro_session`: sets a column only when the
request field is `Some`, always stamps `updated_at = now`. -/
def update_pomodoro_session (s : PomodoroSession) (req : UpdateSessionRequest)
    (now : Nat) : PomodoroSession :=
  { s with
    state := req.state.getD s.state
    remaining_seconds := req.remaining_seconds.getD s.remaining_seconds
    started_at := match req.started_at with
      | some d => some d
      | none => s.started_at
    paused_at := match req.paused_at with
      | some d => some d
      | none => s.paused_at
    completed_at := match req.completed_at with
      | some d => some d
      | none => s.completed_at
    rating := match req.rating with
      | some v => some v
      | none => s.rating
    notes := match req.notes with
      | some v => some v
      | none => s.notes
    updated_at := now }

/-- `storage.rs` `create_pomodoro_session`: fresh uuid id, state `ready`,
`remaining_seconds = duration_minutes * 60`, all optional fields empty,
both timestamps stamped with `now`. -/
def create_pomodoro_session (task_id : Option String) (session_type : SessionType)
    (duration_minutes : Nat) (newId : String) (now : Nat) : PomodoroSession :=
  { id := newId
    task_id := task_id
    session_type := session_type
    state := SessionState.ready
    duration_minutes := duration_minutes
    remaining_seconds := duration_minutes * 60
    started_at := none
    paused_at := none
    completed_at := none
    rating := none
    notes := none
    created_at := now
    updated_at := now }

/-! ## Keyed-collection helpers (the ephemeral `HashMap`s of `api.rs`) -/

/-- `HashMap::get` on a map keyed by `f`. -/
def lookupId {α : Type} (f : α → String) (i : String) : List α → Option α
  | [] => none
  | x :: xs => if f x = i then some x else lookupId f i xs

/-- `HashMap::remove` on a map keyed by `f` (keys are unique in a `HashMap`,
so removing every `f`-match is the same operation). -/
def eraseId {α : Type} (f : α → String) (i : String) : List α → List α
  | [] => []
  | x :: xs => if f x = i then eraseId f i xs else x :: eraseId f i xs

/-- SQL `UPDATE ... WHERE id = i`: rewrite every row whose key is `i`. -/
def updById {α : Type} (f : α → String) (i : String) (g : α → α) (xs : List α) : List α :=
  xs.map fun t => if f t = i then g t else t

/-! ## The entity reconciler of `api.rs`

`sync_tasks` (lines 125–223) and `sync_pomodoro_sessions` (lines 225–317) are
the same loop textually duplicated for the two entity types.  We embed the
loop once, parameterized by the per-entity operations, and instantiate it for
tasks and for sessions; each instantiation unfolds to a term that matches its
Rust original line by line. -/

/-- The per-entity operations a reconciliation run uses:
id and last-modified projections, the local-store update issued when the
remote copy wins, and the local-store create issued for a new remote entity. -/
structure Recon (α : Type) where
  eid : α → String
  ets : α → Nat
  updLocal : Nat → α → α → α
  createLocal : Nat → String → α → α

/-- Loop state of one reconciler run: current local table, the not yet
processed part of the local snapshot map, the `PUT` uploads issued so far,
the two counters, and the fresh-id counter. -/
structure RState (α : Type) where
  store : List α
  remaining : List α
  puts : List α
  synced : Nat
  conflicts : Nat
  k : Nat
deriving DecidableEq

/-- Body of the `for remote in &remotes` loop of `api.rs` (`sync_tasks` lines
153–213): timestamp comparison, equal-timestamp content comparison with
"remote wins" conflict resolution, and local create for a new remote
entity.  Comparisons use the snapshot value `l` held by the map, exactly as
the Rust borrows do. -/
def reconStep {α : Type} [DecidableEq α] (R : Recon α) (now : Nat)
    (fresh : Nat → String) (st : RState α) (r : α) : RState α :=
  match lookupId R.eid (R.eid r) st.remaining with
  | some l =>
    let st1 : RState α := { st with remaining := eraseId R.eid (R.eid r) st.remaining }
    if R.ets l < R.ets r then
      { st1 with
        store := updById R.eid (R.eid r) (R.updLocal now r) st1.store
        synced := st1.synced + 1 }
    else if R.ets r < R.ets l then
      { st1 with puts := st1.puts ++ [l], synced := st1.synced + 1 }
    else if l ≠ r then
      { st1 with
        store := updById R.eid (R.eid r) (R.updLocal now r) st1.store
        conflicts := st1.conflicts + 1 }
    else st1
  | none =>
    { st with
      store := st.store ++ [R.createLocal now (fresh st.k) r]
      synced := st.synced + 1
      k := st.k + 1 }

/-- Outcome of one reconciler run: final local table, `PUT` uploads,
`POST` uploads of the locally-remaining entities, and the two counters. -/
structure RResult (α : Type) where
  store : List α
  puts : List α
  posts : List α
  synced : Nat
  conflicts : Nat
deriving DecidableEq

/-- One full reconciler run: the remote loop, then the leftover loop that
`POST`s every local entity absent remotely, counting one sync per upload
(`api.rs` lines 216–220 / 310–314).  The Rust leftover loop iterates the
`HashMap` in unspecified order; we fix local-snapshot order, which the
counts and final stores do not depend on (each id is handled in
isolation). -/
def reconRun {α : Type} [DecidableEq α] (R : Recon α) (locals remotes : List α)
    (now : Nat) (fresh : Nat → String) (k0 : Nat) : RResult α :=
  let stF := remotes.foldl (reconStep R now fresh) ⟨locals, locals, [], 0, 0, k0⟩
  ⟨stF.store, stF.puts, stF.remaining, stF.synced + stF.remaining.length, stF.conflicts⟩

/-- The `UpdateTaskRequest` `sync_tasks` builds from a remote task
(`api.rs` lines 160–169): mandatory fields wrapped in `Some`, the optional
`description` and `due_date` passed through as they are. -/
def taskUpdateRequestOf (r : Task) : UpdateTaskRequest :=
  { title := some r.title
    description := r.description
    status := some r.status
    priority := some r.priority
    due_date := r.due_date
    tags := some r.tags
    estimated_pomodoros := some r.estimated_pomodoros
    completed_pomodoros := some r.completed_pomodoros }

/-- The `CreateTaskRequest` `sync_tasks` builds from a new remote task
(`api.rs` lines 203–210). -/
def taskCreateRequestOf (r : Task) : CreateTaskRequest :=
  { title := r.title
    description := r.description
    priority := some r.priority
    due_date := r.due_date
    tags := some r.tags
    estimated_pomodoros := some r.estimated_pomodoros }

/-- The task instantiation of the reconciler. -/
def taskRecon : Recon Task :=
  { eid := Task.id
    ets := Task.updated_at
    updLocal := fun now r l => update_task l (taskUpdateRequestOf r) now
    createLocal := fun now i r => create_task (taskCreateRequestOf r) i now }

/-- `api.rs` `sync_tasks` as a pure function of the two snapshots, the wall
clock and the uuid supply. -/
def sync_tasks (locals remotes : List Task) (now : Nat) (fresh : Nat → String)
    (k0 : Nat) : RResult Task :=
  reconRun taskRecon locals remotes now fresh k0

/-- The `UpdateSessionRequest` `sync_pomodoro_sessions` builds from a remote
session (`api.rs` lines 260–268). -/
def sessionUpdateRequestOf (r : PomodoroSession) : UpdateSessionRequest :=
  { state := some r.state
    remaining_seconds := some r.remaining_seconds
    started_at := r.started_at
    paused_at := r.paused_at
    completed_at := r.completed_at
    rating := r.rating
    notes := r.notes }

/-- The session instantiation of the reconciler; a new remote session is
created locally from only its `task_id`, `session_type` and
`duration_minutes` (`api.rs` lines 300–304). -/
def sessionRecon : Recon PomodoroSession :=
  { eid := PomodoroSession.id
    ets := PomodoroSession.updated_at
    updLocal := fun now r l => update_pomodoro_session l (sessionUpdateRequestOf r) now
    createLocal := fun now i r =>
      create_pomodoro_session r.task_id r.session_type r.duration_minutes i now }

/-- `api.rs` `sync_pomodoro_sessions` as a pure function. -/
def sync_pomodoro_sessions (locals remotes : List PomodoroSession) (now : Nat)
    (fresh : Nat → String) (k0 : Nat) : RResult PomodoroSession :=
  reconRun sessionRecon locals remotes now fresh k0

/-! ## Settings reconciler and orchestrator (`api.rs` lines 75–123, 319–345) -/

/-- What `sync_settings` does to the two sides: the local aggregate after the
run, and the aggregate `POST`ed to `/sync/settings` (if any). -/
structure SettingsSyncResult where
  localAfter : Settings
  uploaded : Option Settings

/-- `api.rs` `sync_settings`: if the remote payload has no settings record,
upload the local aggregate verbatim and stop; otherwise overwrite the local
aggregate wholesale with the remote one, without any comparison. -/
def sync_settings (localS : Settings) (remoteS : Option Settings) : SettingsSyncResult :=
  match remoteS with
  | some rs => { localAfter := rs, uploaded := none }
  | none => { localAfter := localS, uploaded := some localS }

/-- `api.rs` `sync_data`: sequence the three phases, each independently
fallible; a failing phase contributes one formatted error string and its
counts stay at their zero initializers; `success` is `errors.is_empty()`. -/
def sync_data (taskRes sessionRes : Except String (Nat × Nat))
    (settingsRes : Except String Unit) (now : Nat) : SyncResult :=
  let synced_tasks := match taskRes with
    | Except.ok p => p.1
    | Except.error _ => 0
  let task_conflicts := match taskRes with
    | Except.ok p => p.2
    | Except.error _ => 0
  let synced_sessions := match sessionRes with
    | Except.ok p => p.1
    | Except.error _ => 0
  let session_conflicts := match sessionRes with
    | Except.ok p => p.2
    | Except.error _ => 0
  let errors :=
    (match taskRes with
      | Except.error e => ["Task sync error: " ++ e]
      | Except.ok _ => []) ++
    (match sessionRes with
      | Except.error e => ["Session sync error: " ++ e]
      | Except.ok _ => []) ++
    (match settingsRes with
      | Except.error e => ["Settings sync error: " ++ e]
      | Except.ok _ => [])
  { success := errors.isEmpty
    synced_tasks := synced_tasks
    synced_sessions := synced_sessions
    conflicts := task_conflicts + session_conflicts
    errors := errors
    last_sync := now }

/-! ## Lemmas about the keyed-collection helpers -/

variable {α : Type}

/-- What a reconciler run leaves in the local table for the snapshot entity
`l`: the local update with the remote fields when the remote copy is
strictly newer or ties with different content, `l` itself otherwise. -/
def mergedLocal (R : Recon α) [DecidableEq α] (now : Nat) (remotes : List α) (l : α) : α :=
  match lookupId R.eid (R.eid l) remotes with
  | some r => if R.ets l < R.ets r ∨ (R.ets l = R.ets r ∧ l ≠ r) then R.updLocal now r l else l
  | none => l

/-- The remote entities with no local counterpart (in remote order). -/
def newRemotes (R : Recon α) (locals remotes : List α) : List α :=
  remotes.filter fun r => (lookupId R.eid (R.eid r) locals).isNone

/-- The local entities with no remote counterpart (in local order). -/
def localOnly (R : Recon α) (locals remotes : List α) : List α :=
  locals.filter fun l => (lookupId R.eid (R.eid l) remotes).isNone

/-- The local entities `PUT` to the remote: matched pairs whose local copy is
strictly newer (in remote order). -/
def putsList (R : Recon α) (locals remotes : List α) : List α :=
  remotes.filterMap fun r =>
    match lookupId R.eid (R.eid r) locals with
    | some l => if R.ets r < R.ets l then some l else none
    | none => none

/-- The local rows created for the listed remote entities, consuming fresh
ids from index `k` on. -/
def createRun (R : Recon α) (now : Nat) (fresh : Nat → String) : Nat → List α → List α
  | _, [] => []
  | k, r :: rs => R.createLocal now (fresh k) r :: createRun R now fresh (k + 1) rs

/-- Remote entity matched locally with a strictly ordered timestamp pair
(either direction): contributes one synced count. -/
def tsDiffB (R : Recon α) (locals : List α) (r : α) : Bool :=
  match lookupId R.eid (R.eid r) locals with
  | some l => R.ets l != R.ets r
  | none => false

/-- Remote entity matched locally with equal timestamps but different
content: a conflict. -/
def tieDiffB (R : Recon α) [DecidableEq α] (locals : List α) (r : α) : Bool :=
  match lookupId R.eid (R.eid r) locals with
  | some l => R.ets l == R.ets r && !(l == r)
  | none => false

/-- The loop state after the remote entities `ps` have been processed. -/
def loopState (R : Recon α) [DecidableEq α] (locals : List α) (now : Nat)
    (fresh : Nat → String) (k0 : Nat) (ps : List α) : RState α :=
  { store := locals.map (mergedLocal R now ps)
      ++ createRun R now fresh k0 (newRemotes R locals ps)
    remaining := localOnly R locals ps
    puts := putsList R locals ps
    synced := (ps.filter (tsDiffB R locals)).length + (newRemotes R locals ps).length
    conflicts := (ps.filter (tieDiffB R locals)).length
    k := k0 + (newRemotes R locals ps).length }

/-- The conflict-count contribution of processing one remote entity: `1`
exactly when a local entity with the same id, the same timestamp and
different content is still unprocessed. -/
def conflictDelta {β : Type} [DecidableEq β] (eid : β → String) (ets : β → Nat)
    (remaining : List β) (r : β) : Nat :=
  match lookupId eid (eid r) remaining with
  | some l => if ets l = ets r ∧ l ≠ r then 1 else 0
  | none => 0

/-! ## Sample entities for concrete instantiations -/

def mkTask (i : String) (ts : Nat) (title : String) (desc : Option String) : Task :=
  { id := i
    title := title
    description := desc
    status := TaskStatus.pending
    priority := TaskPriority.medium
    due_date := none
    tags := []
    estimated_pomodoros := 1
    completed_pomodoros := 0
    created_at := 0
    updated_at := ts }

def mkSession (i : String) (ts : Nat) (notes : Option String) : PomodoroSession :=
  { id := i
    task_id := none
    session_type := SessionType.work
    state := SessionState.ready
    duration_minutes := 25
    remaining_seconds := 1500
    started_at := none
    paused_at := none
    completed_at := none
    rating := none
    notes := notes
    created_at := 0
    updated_at := ts }

/-! ## The remote store across two runs -/

/-- Effect of one `PUT` upload on the remote collection: replace the entity
with the uploaded id by the uploaded entity. -/
def applyPut (f : α → String) (rem : List α) (p : α) : List α :=
  rem.map fun t => if f t = f p then p else t

/-- Modelled from the spec: the remote service (not part of this repository)
applies each `PUT /{collection}/{id}` by replacing the entity with that id
and each `POST /{collection}` by inserting the uploaded entity (§6 Remote
Client contract).  `remoteAfterRun` is the remote snapshot after the service
applied every upload a run issued. -/
def remoteAfterRun (R : Recon α) (res : RResult α) (remote : List α) : List α :=
  res.puts.foldl (applyPut R.eid) remote ++ res.posts

/-! ## Fallible runs: failure of an individual storage or transport operation

`Result`-returning Rust code propagates the first failing operation with `?`.
We inject failures by numbering the fallible operations of one reconciler
run (0 = local fetch, 1 = remote fetch, then one per storage write or
upload in execution order) and aborting at a designated index; the error
carries the state reached so far, since already-applied storage writes are
not rolled back. -/

structure FSt (α : Type) where
  store : List α
  remaining : List α
  puts : List α
  posts : List α
  synced : Nat
  conflicts : Nat
  k : Nat
  op : Nat
deriving DecidableEq

/-- Fallible loop body: as `reconStep`, but each storage write or upload is
a numbered fallible operation; on failure the run aborts with the state
unchanged (the map removal at the end of the Rust loop body is skipped by
the early return, and nothing is rolled back). -/
def reconStepF (R : Recon α) [DecidableEq α] (failAt : Option Nat) (now : Nat)
    (fresh : Nat → String) (st : FSt α) (r : α) : Except (FSt α) (FSt α) :=
  match lookupId R.eid (R.eid r) st.remaining with
  | some l =>
    if R.ets l < R.ets r then
      if failAt = some st.op then Except.error st
      else Except.ok { st with
        store := updById R.eid (R.eid r) (R.updLocal now r) st.store
        remaining := eraseId R.eid (R.eid r) st.remaining
        synced := st.synced + 1
        op := st.op + 1 }
    else if R.ets r < R.ets l then
      if failAt = some st.op then Except.error st
      else Except.ok { st with
        remaining := eraseId R.eid (R.eid r) st.remaining
        puts := st.puts ++ [l]
        synced := st.synced + 1
        op := st.op + 1 }
    else if l ≠ r then
      if failAt = some st.op then Except.error st
      else Except.ok { st with
        store := updById R.eid (R.eid r) (R.updLocal now r) st.store
        remaining := eraseId R.eid (R.eid r) st.remaining
        conflicts := st.conflicts + 1
        op := st.op + 1 }
    else Except.ok { st with remaining := eraseId R.eid (R.eid r) st.remaining }
  | none =>
    if failAt = some st.op then Except.error st
    else Except.ok { st with
      store := st.store ++ [R.createLocal now (fresh st.k) r]
      synced := st.synced + 1
      k := st.k + 1
      op := st.op + 1 }

/-- Fallible leftover upload: one `POST` per local entity absent remotely. -/
def reconPostF (failAt : Option Nat) (st : FSt α) (l : α) : Except (FSt α) (FSt α) :=
  if failAt = some st.op then Except.error st
  else Except.ok { st with
    posts := st.posts ++ [l]
    synced := st.synced + 1
    op := st.op + 1 }

/-- One fallible reconciler run: local fetch (op 0), remote fetch (op 1),
the remote loop, then the leftover uploads; the first failing operation
aborts the run, returning the state reached so far. -/
def reconRunF (R : Recon α) [DecidableEq α] (locals remotes : List α) (now : Nat)
    (fresh : Nat → String) (k0 : Nat) (failAt : Option Nat) :
    Except (FSt α) (FSt α) :=
  if failAt = some 0 then Except.error ⟨locals, locals, [], [], 0, 0, k0, 0⟩
  else if failAt = some 1 then Except.error ⟨locals, locals, [], [], 0, 0, k0, 1⟩
  else do
    let st1 ← remotes.foldlM (reconStepF R failAt now fresh)
      ⟨locals, locals, [], [], 0, 0, k0, 2⟩
    st1.remaining.foldlM (reconPostF failAt) st1

/-- The value `sync_pomodoro_sessions` returns to `sync_data`: the counts on
success, the propagated error message on failure (`api.rs` lines 100–108,
316). -/
def sessionSyncOutcome (res : Except (FSt PomodoroSession) (FSt PomodoroSession))
    (emsg : String) : Except String (Nat × Nat) :=
  match res with
  | Except.error _ => Except.error emsg
  | Except.ok st => Except.ok (st.synced, st.conflicts)

/-! ## Theorems -/

theorem lookupId_eq_none_iff (f : α → String) (i : String) (xs : List α) :
    lookupId f i xs = none ↔ ∀ x ∈ xs, f x ≠ i := by
  induction xs with
  | nil => simp [lookupId]
  | cons x xs ih =>
    by_cases h : f x = i <;> simp [lookupId, h, ih]

theorem lookupId_eq_some {f : α → String} {i : String} {x : α} {xs : List α}
    (h : lookupId f i xs = some x) : f x = i ∧ x ∈ xs := by
  induction xs with
  | nil => simp [lookupId] at h
  | cons y ys ih =>
    by_cases hy : f y = i
    · simp only [lookupId, if_pos hy, Option.some.injEq] at h
      subst h
      exact ⟨hy, List.mem_cons_self y ys⟩
    · simp only [lookupId, if_neg hy] at h
      rcases ih h with ⟨h1, h2⟩
      exact ⟨h1, List.mem_cons_of_mem y h2⟩

theorem lookupId_self {f : α → String} {xs : List α} (hn : (xs.map f).Nodup)
    {x : α} (hx : x ∈ xs) : lookupId f (f x) xs = some x := by
  induction xs with
  | nil => simp at hx
  | cons y ys ih =>
    rw [List.map_cons, List.nodup_cons] at hn
    rcases List.mem_cons.mp hx with rfl | hx2
    · simp [lookupId]
    · have hne : f y ≠ f x := by
        intro he
        exact hn.1 (he ▸ List.mem_map_of_mem f hx2)
      simp only [lookupId, if_neg hne]
      exact ih hn.2 hx2

theorem lookupId_append_of_none {f : α → String} {i : String} {xs : List α}
    (h : lookupId f i xs = none) (ys : List α) :
    lookupId f i (xs ++ ys) = lookupId f i ys := by
  induction xs with
  | nil => simp
  | cons x xs ih =>
    by_cases hx : f x = i
    · simp [lookupId, hx] at h
    · simp only [lookupId, if_neg hx] at h
      simp only [List.cons_append, lookupId, if_neg hx]
      exact ih h

theorem lookupId_append_of_some {f : α → String} {i : String} {x : α} {xs : List α}
    (h : lookupId f i xs = some x) (ys : List α) :
    lookupId f i (xs ++ ys) = some x := by
  induction xs with
  | nil => simp [lookupId] at h
  | cons y xs ih =>
    by_cases hy : f y = i
    · simp only [lookupId, if_pos hy, Option.some.injEq] at h
      subst h
      simp [lookupId, hy]
    · simp only [lookupId, if_neg hy] at h
      simp only [List.cons_append, lookupId, if_neg hy]
      exact ih h

theorem lookupId_map_pres {f : α → String} {h : α → α}
    (hp : ∀ x, f (h x) = f x) (i : String) (xs : List α) :
    lookupId f i (xs.map h) = (lookupId f i xs).map h := by
  induction xs with
  | nil => simp [lookupId]
  | cons x xs ih =>
    by_cases hx : f x = i
    · simp [lookupId, hp, hx]
    · simp [lookupId, hp, hx, ih]

theorem eraseId_eq_of_absent {f : α → String} {i : String} {xs : List α}
    (h : ∀ x ∈ xs, f x ≠ i) : eraseId f i xs = xs := by
  induction xs with
  | nil => rfl
  | cons x xs ih =>
    simp only [eraseId, if_neg (h x (List.mem_cons_self x xs))]
    rw [ih fun y hy => h y (List.mem_cons_of_mem x hy)]

theorem updById_append (f : α → String) (i : String) (g : α → α) (xs ys : List α) :
    updById f i g (xs ++ ys) = updById f i g xs ++ updById f i g ys :=
  List.map_append _ xs ys

theorem updById_eq_of_absent {f : α → String} {i : String} {xs : List α}
    (g : α → α) (h : ∀ x ∈ xs, f x ≠ i) : updById f i g xs = xs := by
  unfold updById
  rw [List.map_congr_left fun x hx => if_neg (h x hx)]
  exact List.map_id xs

/-! ## Characterization of one reconciler run

The functions `mergedLocal`, `newRemotes`, `localOnly`, `putsList`,
`createRun`, `tsDiffB` and `tieDiffB` describe, pair by pair, what a run
does to each id; `reconRun_eq` below proves they agree with the loop. -/

theorem eid_mergedLocal (R : Recon α) [DecidableEq α]
    (hUid : ∀ now r l, R.eid (R.updLocal now r l) = R.eid l)
    (now : Nat) (ps : List α) (l : α) :
    R.eid (mergedLocal R now ps l) = R.eid l := by
  unfold mergedLocal
  cases lookupId R.eid (R.eid l) ps with
  | none => rfl
  | some r =>
    by_cases hc : R.ets l < R.ets r ∨ (R.ets l = R.ets r ∧ l ≠ r)
    · simp only [if_pos hc]
      exact hUid now r l
    · simp only [if_neg hc]

theorem lookupId_localOnly (R : Recon α) {i : String} {ps : List α}
    (hps : lookupId R.eid i ps = none) (locals : List α) :
    lookupId R.eid i (localOnly R locals ps) = lookupId R.eid i locals := by
  induction locals with
  | nil => rfl
  | cons x xs ih =>
    unfold localOnly at ih ⊢
    rw [List.filter_cons]
    by_cases hx : R.eid x = i
    · have hkeep : (lookupId R.eid (R.eid x) ps).isNone = true := by
        rw [hx, hps]
        rfl
      rw [if_pos hkeep]
      simp only [lookupId, if_pos hx]
    · cases hmem : (lookupId R.eid (R.eid x) ps).isNone with
      | true =>
        rw [if_pos rfl]
        simp only [lookupId, if_neg hx]
        exact ih
      | false =>
        rw [if_neg Bool.false_ne_true]
        rw [ih]
        simp only [lookupId, if_neg hx]

theorem updById_createRun (R : Recon α) [DecidableEq α]
    (hCid : ∀ now i r, R.eid (R.createLocal now i r) = i)
    {i : String} {fresh : Nat → String} (hf : ∀ n, fresh n ≠ i)
    (g : α → α) (now k : Nat) (rs : List α) :
    updById R.eid i g (createRun R now fresh k rs) = createRun R now fresh k rs := by
  induction rs generalizing k with
  | nil => rfl
  | cons r rs ih =>
    simp only [createRun, updById, List.map_cons]
    rw [if_neg (by rw [hCid]; exact hf k)]
    exact congrArg _ (ih (k + 1))

theorem createRun_snoc (R : Recon α) (now : Nat) (fresh : Nat → String) (k : Nat)
    (xs : List α) (r : α) :
    createRun R now fresh k (xs ++ [r])
      = createRun R now fresh k xs ++ [R.createLocal now (fresh (k + xs.length)) r] := by
  induction xs generalizing k with
  | nil => simp [createRun]
  | cons x xs ih =>
    have harith : k + 1 + xs.length = k + (xs.length + 1) := by omega
    simp only [List.cons_append, createRun, List.length_cons, List.append_eq]
    rw [ih (k + 1), harith]

theorem localOnly_snoc (R : Recon α) (locals ps : List α) (r : α) :
    localOnly R locals (ps ++ [r]) = eraseId R.eid (R.eid r) (localOnly R locals ps) := by
  induction locals with
  | nil => rfl
  | cons x xs ih =>
    unfold localOnly at ih ⊢
    rw [List.filter_cons, List.filter_cons]
    by_cases hps : lookupId R.eid (R.eid x) ps = none
    · by_cases hxr : R.eid x = R.eid r
      · have hlhs : lookupId R.eid (R.eid x) (ps ++ [r]) = some r := by
          rw [lookupId_append_of_none hps]
          simp [lookupId, hxr.symm]
        rw [if_neg (by rw [hlhs]; exact Bool.false_ne_true)]
        rw [if_pos (by rw [hps]; rfl)]
        simp only [eraseId, if_pos hxr]
        exact ih
      · have hrx : R.eid r ≠ R.eid x := fun he => hxr he.symm
        have hlhs : lookupId R.eid (R.eid x) (ps ++ [r]) = none := by
          rw [lookupId_append_of_none hps]
          simp [lookupId, hrx]
        rw [if_pos (by rw [hlhs]; rfl)]
        rw [if_pos (by rw [hps]; rfl)]
        simp only [eraseId, if_neg hxr]
        exact congrArg _ ih
    · obtain ⟨y, hy⟩ := Option.ne_none_iff_exists'.mp hps
      have hlhs : lookupId R.eid (R.eid x) (ps ++ [r]) = some y :=
        lookupId_append_of_some hy [r]
      rw [if_neg (by rw [hlhs]; exact Bool.false_ne_true)]
      rw [if_neg (by rw [hy]; exact Bool.false_ne_true)]
      exact ih

theorem putsList_snoc (R : Recon α) (locals ps : List α) (r : α) :
    putsList R locals (ps ++ [r])
      = putsList R locals ps ++
        (match lookupId R.eid (R.eid r) locals with
         | some l => if R.ets r < R.ets l then [l] else []
         | none => []) := by
  unfold putsList
  rw [List.filterMap_append]
  congr 1
  cases h : lookupId R.eid (R.eid r) locals with
  | none => simp [List.filterMap_cons, h]
  | some l =>
    by_cases hts : R.ets r < R.ets l <;>
      simp [List.filterMap_cons, h, hts]

theorem mergedLocal_snoc_ne (R : Recon α) [DecidableEq α] (now : Nat) {ps : List α}
    {l r : α} (h : R.eid l ≠ R.eid r) :
    mergedLocal R now (ps ++ [r]) l = mergedLocal R now ps l := by
  unfold mergedLocal
  cases hps : lookupId R.eid (R.eid l) ps with
  | some x => rw [lookupId_append_of_some hps]
  | none =>
    rw [lookupId_append_of_none hps]
    have hrl : R.eid r ≠ R.eid l := fun he => h he.symm
    have hr : lookupId R.eid (R.eid l) [r] = none := by
      simp [lookupId, hrl]
    rw [hr]

theorem mergedLocal_snoc_self (R : Recon α) [DecidableEq α] (now : Nat) {ps : List α}
    {l r : α} (heq : R.eid l = R.eid r) (hps : lookupId R.eid (R.eid l) ps = none) :
    mergedLocal R now (ps ++ [r]) l
      = if R.ets l < R.ets r ∨ (R.ets l = R.ets r ∧ l ≠ r) then R.updLocal now r l else l := by
  unfold mergedLocal
  rw [lookupId_append_of_none hps]
  simp [lookupId, heq.symm]

theorem mergedLocal_eq_self (R : Recon α) [DecidableEq α] (now : Nat) {ps : List α}
    {l : α} (hps : lookupId R.eid (R.eid l) ps = none) :
    mergedLocal R now ps l = l := by
  unfold mergedLocal
  rw [hps]

theorem updById_map_merged (R : Recon α) [DecidableEq α]
    (hUid : ∀ now r l, R.eid (R.updLocal now r l) = R.eid l)
    {locals : List α} (hL : (locals.map R.eid).Nodup) (now : Nat) {ps : List α} {r l : α}
    (hlook : lookupId R.eid (R.eid r) locals = some l)
    (hps : lookupId R.eid (R.eid r) ps = none)
    (hcond : R.ets l < R.ets r ∨ (R.ets l = R.ets r ∧ l ≠ r)) :
    updById R.eid (R.eid r) (R.updLocal now r) (locals.map (mergedLocal R now ps))
      = locals.map (mergedLocal R now (ps ++ [r])) := by
  unfold updById
  rw [List.map_map]
  refine List.map_congr_left fun x hx => ?_
  simp only [Function.comp_apply, eid_mergedLocal R hUid]
  by_cases hxr : R.eid x = R.eid r
  · have hself : lookupId R.eid (R.eid r) locals = some x := by
      rw [← hxr]
      exact lookupId_self hL hx
    have hxl : x = l := Option.some_injective _ (hself.symm.trans hlook)
    subst hxl
    have hpsx : lookupId R.eid (R.eid x) ps = none := by rw [hxr]; exact hps
    rw [if_pos hxr, mergedLocal_eq_self R now hpsx,
      mergedLocal_snoc_self R now hxr hpsx, if_pos hcond]
  · rw [if_neg hxr, mergedLocal_snoc_ne R now hxr]

theorem map_merged_snoc_unchanged (R : Recon α) [DecidableEq α]
    {locals : List α} (hL : (locals.map R.eid).Nodup) (now : Nat) {ps : List α} {r l : α}
    (hlook : lookupId R.eid (R.eid r) locals = some l)
    (hps : lookupId R.eid (R.eid r) ps = none)
    (hcond : ¬(R.ets l < R.ets r ∨ (R.ets l = R.ets r ∧ l ≠ r))) :
    locals.map (mergedLocal R now (ps ++ [r])) = locals.map (mergedLocal R now ps) := by
  refine List.map_congr_left fun x hx => ?_
  by_cases hxr : R.eid x = R.eid r
  · have hself : lookupId R.eid (R.eid r) locals = some x := by
      rw [← hxr]
      exact lookupId_self hL hx
    have hxl : x = l := Option.some_injective _ (hself.symm.trans hlook)
    subst hxl
    have hpsx : lookupId R.eid (R.eid x) ps = none := by rw [hxr]; exact hps
    rw [mergedLocal_snoc_self R now hxr hpsx, if_neg hcond, mergedLocal_eq_self R now hpsx]
  · exact mergedLocal_snoc_ne R now hxr

/-- Processing one more remote entity advances the loop state from the
processed prefix `ps` to `ps ++ [r]`. -/
theorem reconStep_loopState (R : Recon α) [DecidableEq α]
    (hUid : ∀ now r l, R.eid (R.updLocal now r l) = R.eid l)
    (hCid : ∀ now i r, R.eid (R.createLocal now i r) = i)
    (locals : List α) (now : Nat) (fresh : Nat → String) (k0 : Nat)
    (hL : (locals.map R.eid).Nodup)
    (ps : List α) (r : α)
    (hr : ∀ p ∈ ps, R.eid p ≠ R.eid r)
    (hFr : ∀ n, fresh n ≠ R.eid r) :
    reconStep R now fresh (loopState R locals now fresh k0 ps) r
      = loopState R locals now fresh k0 (ps ++ [r]) := by
  have hpsnone : lookupId R.eid (R.eid r) ps = none :=
    (lookupId_eq_none_iff _ _ _).mpr hr
  have hrem : lookupId R.eid (R.eid r) (localOnly R locals ps)
      = lookupId R.eid (R.eid r) locals := lookupId_localOnly R hpsnone locals
  have hloc : localOnly R locals (ps ++ [r])
      = eraseId R.eid (R.eid r) (localOnly R locals ps) := localOnly_snoc R locals ps r
  simp only [reconStep, loopState]
  rw [hrem]
  cases hlook : lookupId R.eid (R.eid r) locals with
  | none =>
    have habs : ∀ l ∈ locals, R.eid l ≠ R.eid r :=
      (lookupId_eq_none_iff _ _ _).mp hlook
    have hmap : locals.map (mergedLocal R now (ps ++ [r]))
        = locals.map (mergedLocal R now ps) :=
      List.map_congr_left fun x hx => mergedLocal_snoc_ne R now (habs x hx)
    have hnewr : newRemotes R locals (ps ++ [r]) = newRemotes R locals ps ++ [r] := by
      unfold newRemotes
      rw [List.filter_append]
      simp [hlook]
    have honly : localOnly R locals (ps ++ [r]) = localOnly R locals ps := by
      rw [hloc]
      exact eraseId_eq_of_absent fun x hx => habs x (List.mem_of_mem_filter hx)
    have hputs : putsList R locals (ps ++ [r]) = putsList R locals ps := by
      rw [putsList_snoc, hlook]
      simp
    have htsf : tsDiffB R locals r = false := by
      unfold tsDiffB
      rw [hlook]
    have htief : tieDiffB R locals r = false := by
      unfold tieDiffB
      rw [hlook]
    have hts : (ps ++ [r]).filter (tsDiffB R locals) = ps.filter (tsDiffB R locals) := by
      rw [List.filter_append]
      simp [htsf]
    have htie : (ps ++ [r]).filter (tieDiffB R locals) = ps.filter (tieDiffB R locals) := by
      rw [List.filter_append]
      simp [htief]
    simp only [RState.mk.injEq]
    refine ⟨?_, ?_, ?_, ?_, ?_, ?_⟩
    · rw [hmap, hnewr, createRun_snoc, ← List.append_assoc]
    · rw [honly]
    · rw [hputs]
    · rw [hts, hnewr, List.length_append]
      simp
      omega
    · rw [htie]
    · rw [hnewr, List.length_append]
      simp
      omega
  | some l =>
    obtain ⟨hlid, hlmem⟩ := lookupId_eq_some hlook
    have hnewr : newRemotes R locals (ps ++ [r]) = newRemotes R locals ps := by
      unfold newRemotes
      rw [List.filter_append]
      simp [hlook]
    have hcreate : updById R.eid (R.eid r) (R.updLocal now r)
        (createRun R now fresh k0 (newRemotes R locals ps))
        = createRun R now fresh k0 (newRemotes R locals ps) :=
      updById_createRun R hCid hFr _ now k0 _
    by_cases h1 : R.ets l < R.ets r
    · have hcond : R.ets l < R.ets r ∨ (R.ets l = R.ets r ∧ l ≠ r) := Or.inl h1
      have htsr : tsDiffB R locals r = true := by
        unfold tsDiffB
        rw [hlook]
        simp [Nat.ne_of_lt h1]
      have htier : tieDiffB R locals r = false := by
        unfold tieDiffB
        rw [hlook]
        simp [Nat.ne_of_lt h1]
      simp only [if_pos h1, RState.mk.injEq]
      refine ⟨?_, ?_, ?_, ?_, ?_, ?_⟩
      · rw [updById_append, hcreate,
          updById_map_merged R hUid hL now hlook hpsnone hcond, hnewr]
      · rw [hloc]
      · rw [putsList_snoc, hlook]
        simp [Nat.not_lt.mpr (Nat.le_of_lt h1)]
      · rw [List.filter_append, List.length_append, hnewr]
        simp [htsr]
        omega
      · rw [List.filter_append, List.length_append]
        simp [htier]
      · rw [hnewr]
    · by_cases h2 : R.ets r < R.ets l
      · have hcond : ¬(R.ets l < R.ets r ∨ (R.ets l = R.ets r ∧ l ≠ r)) := by
          rintro (hc | ⟨he, -⟩)
          · exact h1 hc
          · exact (Nat.ne_of_lt h2) he.symm
        have htsr : tsDiffB R locals r = true := by
          unfold tsDiffB
          rw [hlook]
          simp [(Nat.ne_of_lt h2).symm]
        have htier : tieDiffB R locals r = false := by
          unfold tieDiffB
          rw [hlook]
          simp [(Nat.ne_of_lt h2).symm]
        simp only [if_neg h1, if_pos h2, RState.mk.injEq]
        refine ⟨?_, ?_, ?_, ?_, ?_, ?_⟩
        · rw [map_merged_snoc_unchanged R hL now hlook hpsnone hcond, hnewr]
        · rw [hloc]
        · rw [putsList_snoc, hlook]
          simp [h2]
        · rw [List.filter_append, List.length_append, hnewr]
          simp [htsr]
          omega
        · rw [List.filter_append, List.length_append]
          simp [htier]
        · rw [hnewr]
      · have heq : R.ets l = R.ets r :=
          Nat.le_antisymm (Nat.not_lt.mp h2) (Nat.not_lt.mp h1)
        have htsr : tsDiffB R locals r = false := by
          unfold tsDiffB
          rw [hlook]
          simp [heq]
        have hputs : putsList R locals (ps ++ [r]) = putsList R locals ps := by
          rw [putsList_snoc, hlook]
          simp [h2]
        by_cases h3 : l = r
        · have hcond : ¬(R.ets l < R.ets r ∨ (R.ets l = R.ets r ∧ l ≠ r)) := by
            rintro (hc | ⟨-, hne⟩)
            · exact h1 hc
            · exact hne h3
          have htier : tieDiffB R locals r = false := by
            unfold tieDiffB
            rw [hlook]
            simp [h3]
          have hnne : ¬(l ≠ r) := fun hn => hn h3
          simp only [if_neg h1, if_neg h2, if_neg hnne, RState.mk.injEq]
          refine ⟨?_, ?_, ?_, ?_, ?_, ?_⟩
          · rw [map_merged_snoc_unchanged R hL now hlook hpsnone hcond, hnewr]
          · rw [hloc]
          · rw [hputs]
          · rw [List.filter_append, List.length_append, hnewr]
            simp [htsr]
          · rw [List.filter_append, List.length_append]
            simp [htier]
          · rw [hnewr]
        · have hcond : R.ets l < R.ets r ∨ (R.ets l = R.ets r ∧ l ≠ r) :=
            Or.inr ⟨heq, h3⟩
          have htier : tieDiffB R locals r = true := by
            unfold tieDiffB
            rw [hlook]
            simp [heq, h3]
          simp only [if_neg h1, if_neg h2, if_pos h3, RState.mk.injEq]
          refine ⟨?_, ?_, ?_, ?_, ?_, ?_⟩
          · rw [updById_append, hcreate,
              updById_map_merged R hUid hL now hlook hpsnone hcond, hnewr]
          · rw [hloc]
          · rw [hputs]
          · rw [List.filter_append, List.length_append, hnewr]
            simp [htsr]
          · rw [List.filter_append, List.length_append]
            simp [htier]
          · rw [hnewr]

theorem loopState_nil (R : Recon α) [DecidableEq α] (locals : List α) (now : Nat)
    (fresh : Nat → String) (k0 : Nat) :
    loopState R locals now fresh k0 [] = ⟨locals, locals, [], 0, 0, k0⟩ := by
  unfold loopState
  simp only [RState.mk.injEq]
  refine ⟨?_, ?_, ?_, ?_, ?_, ?_⟩
  · have hm : ∀ l ∈ locals, mergedLocal R now [] l = l := fun l _ =>
      mergedLocal_eq_self R now rfl
    rw [List.map_congr_left hm]
    simp [newRemotes, createRun]
  · unfold localOnly
    have : ∀ l ∈ locals, (lookupId R.eid (R.eid l) ([] : List α)).isNone = true :=
      fun l _ => rfl
    simp [List.filter_eq_self]
    intro a _
    rfl
  · rfl
  · simp [newRemotes]
  · rfl
  · simp [newRemotes]

theorem reconLoop_loopState (R : Recon α) [DecidableEq α]
    (hUid : ∀ now r l, R.eid (R.updLocal now r l) = R.eid l)
    (hCid : ∀ now i r, R.eid (R.createLocal now i r) = i)
    (locals : List α) (now : Nat) (fresh : Nat → String) (k0 : Nat)
    (hL : (locals.map R.eid).Nodup) :
    ∀ (rs ps : List α),
      (∀ x ∈ ps, ∀ y ∈ rs, R.eid x ≠ R.eid y) →
      ((rs.map R.eid).Nodup) →
      (∀ n, ∀ y ∈ rs, fresh n ≠ R.eid y) →
      List.foldl (reconStep R now fresh) (loopState R locals now fresh k0 ps) rs
        = loopState R locals now fresh k0 (ps ++ rs) := by
  intro rs
  induction rs with
  | nil =>
    intro ps _ _ _
    simp
  | cons r rs ih =>
    intro ps hcross hnd hfr
    rw [List.foldl_cons]
    rw [reconStep_loopState R hUid hCid locals now fresh k0 hL ps r
      (fun p hp => hcross p hp r (List.mem_cons_self r rs))
      (fun n => hfr n r (List.mem_cons_self r rs))]
    rw [List.map_cons, List.nodup_cons] at hnd
    have hstep := ih (ps ++ [r])
      (by
        intro x hx y hy
        rcases List.mem_append.mp hx with hx1 | hx2
        · exact hcross x hx1 y (List.mem_cons_of_mem r hy)
        · have hxr : x = r := List.mem_singleton.mp hx2
          subst hxr
          intro he
          exact hnd.1 (he ▸ List.mem_map_of_mem R.eid hy))
      hnd.2
      (fun n y hy => hfr n y (List.mem_cons_of_mem r hy))
    rw [hstep, List.append_assoc]
    rfl

/-- Characterization of one reconciler run: invariant of `api.rs`
`sync_tasks` / `sync_pomodoro_sessions`.  Under distinct snapshot ids and a
fresh uuid supply, the run updates exactly the matched entities the policy
selects, uploads exactly the strictly-newer local copies, creates exactly
the unmatched remote entities locally and `POST`s exactly the unmatched
local entities, with `synced` counting ordered-timestamp resolutions plus
creates in both directions and `conflicts` counting the equal-timestamp
different-content pairs. -/
theorem reconRun_eq (R : Recon α) [DecidableEq α]
    (hUid : ∀ now r l, R.eid (R.updLocal now r l) = R.eid l)
    (hCid : ∀ now i r, R.eid (R.createLocal now i r) = i)
    (locals remotes : List α) (now : Nat) (fresh : Nat → String) (k0 : Nat)
    (hL : (locals.map R.eid).Nodup)
    (hR : (remotes.map R.eid).Nodup)
    (hF : ∀ n, fresh n ∉ remotes.map R.eid) :
    reconRun R locals remotes now fresh k0 =
      { store := locals.map (mergedLocal R now remotes)
          ++ createRun R now fresh k0 (newRemotes R locals remotes)
        puts := putsList R locals remotes
        posts := localOnly R locals remotes
        synced := (remotes.filter (tsDiffB R locals)).length
          + (newRemotes R locals remotes).length
          + (localOnly R locals remotes).length
        conflicts := (remotes.filter (tieDiffB R locals)).length } := by
  unfold reconRun
  have h0 : (⟨locals, locals, [], 0, 0, k0⟩ : RState α)
      = loopState R locals now fresh k0 [] := (loopState_nil R locals now fresh k0).symm
  rw [h0, reconLoop_loopState R hUid hCid locals now fresh k0 hL remotes []
    (by intro x hx; cases hx)
    hR
    (by
      intro n y hy he
      exact hF n (he ▸ List.mem_map_of_mem R.eid hy))]
  simp only [List.nil_append, loopState]

/-! ## Instance facts: the task and session operations preserve ids and
stamp `updated_at` with the wall clock -/

theorem taskRecon_upd_id : ∀ (now : Nat) (r l : Task),
    taskRecon.eid (taskRecon.updLocal now r l) = taskRecon.eid l := fun _ _ _ => rfl

theorem taskRecon_create_id : ∀ (now : Nat) (i : String) (r : Task),
    taskRecon.eid (taskRecon.createLocal now i r) = i := fun _ _ _ => rfl

theorem taskRecon_upd_ts : ∀ (now : Nat) (r l : Task),
    taskRecon.ets (taskRecon.updLocal now r l) = now := fun _ _ _ => rfl

theorem sessionRecon_upd_id : ∀ (now : Nat) (r l : PomodoroSession),
    sessionRecon.eid (sessionRecon.updLocal now r l) = sessionRecon.eid l := fun _ _ _ => rfl

theorem sessionRecon_create_id : ∀ (now : Nat) (i : String) (r : PomodoroSession),
    sessionRecon.eid (sessionRecon.createLocal now i r) = i := fun _ _ _ => rfl

theorem sessionRecon_upd_ts : ∀ (now : Nat) (r l : PomodoroSession),
    sessionRecon.ets (sessionRecon.updLocal now r l) = now := fun _ _ _ => rfl

/-! ## Branch behaviour of one loop iteration -/

theorem reconStep_matched_remote_newer (R : Recon α) [DecidableEq α]
    (now : Nat) (fresh : Nat → String) (st : RState α) (r l : α)
    (hlook : lookupId R.eid (R.eid r) st.remaining = some l)
    (hlt : R.ets l < R.ets r) :
    reconStep R now fresh st r
      = { st with
          store := updById R.eid (R.eid r) (R.updLocal now r) st.store
          remaining := eraseId R.eid (R.eid r) st.remaining
          synced := st.synced + 1 } := by
  simp [reconStep, hlook, hlt]

theorem reconStep_matched_local_newer (R : Recon α) [DecidableEq α]
    (now : Nat) (fresh : Nat → String) (st : RState α) (r l : α)
    (hlook : lookupId R.eid (R.eid r) st.remaining = some l)
    (hlt : R.ets r < R.ets l) :
    reconStep R now fresh st r
      = { st with
          remaining := eraseId R.eid (R.eid r) st.remaining
          puts := st.puts ++ [l]
          synced := st.synced + 1 } := by
  have h1 : ¬R.ets l < R.ets r := Nat.lt_asymm hlt
  simp [reconStep, hlook, h1, hlt]

theorem reconStep_tie_diff (R : Recon α) [DecidableEq α]
    (now : Nat) (fresh : Nat → String) (st : RState α) (r l : α)
    (hlook : lookupId R.eid (R.eid r) st.remaining = some l)
    (heq : R.ets l = R.ets r) (hne : l ≠ r) :
    reconStep R now fresh st r
      = { st with
          store := updById R.eid (R.eid r) (R.updLocal now r) st.store
          remaining := eraseId R.eid (R.eid r) st.remaining
          conflicts := st.conflicts + 1 } := by
  have h1 : ¬R.ets l < R.ets r := by omega
  have h2 : ¬R.ets r < R.ets l := by omega
  simp [reconStep, hlook, h1, h2, hne]

theorem reconStep_tie_same (R : Recon α) [DecidableEq α]
    (now : Nat) (fresh : Nat → String) (st : RState α) (r l : α)
    (hlook : lookupId R.eid (R.eid r) st.remaining = some l)
    (heq : R.ets l = R.ets r) (hsame : l = r) :
    reconStep R now fresh st r
      = { st with remaining := eraseId R.eid (R.eid r) st.remaining } := by
  subst hsame
  have h1 : ¬R.ets l < R.ets l := by omega
  simp [reconStep, hlook, h1]

theorem reconStep_unmatched (R : Recon α) [DecidableEq α]
    (now : Nat) (fresh : Nat → String) (st : RState α) (r : α)
    (hlook : lookupId R.eid (R.eid r) st.remaining = none) :
    reconStep R now fresh st r
      = { st with
          store := st.store ++ [R.createLocal now (fresh st.k) r]
          synced := st.synced + 1
          k := st.k + 1 } := by
  simp [reconStep, hlook]

theorem reconStep_conflicts_char (R : Recon α) [DecidableEq α]
    (now : Nat) (fresh : Nat → String) (st : RState α) (r : α) :
    (reconStep R now fresh st r).conflicts
      = st.conflicts + conflictDelta R.eid R.ets st.remaining r := by
  unfold conflictDelta
  cases hlook : lookupId R.eid (R.eid r) st.remaining with
  | none => simp [reconStep, hlook]
  | some l =>
    by_cases h1 : R.ets l < R.ets r
    · have hns : ¬(R.ets l = R.ets r ∧ l ≠ r) := by rintro ⟨he, -⟩; omega
      simp [reconStep, hlook, h1, hns]
    · by_cases h2 : R.ets r < R.ets l
      · have h1n : ¬R.ets l < R.ets r := h1
        have hns : ¬(R.ets l = R.ets r ∧ l ≠ r) := by rintro ⟨he, -⟩; omega
        simp [reconStep, hlook, h1, h2, hns]
      · have heq : R.ets l = R.ets r := by omega
        by_cases h3 : l = r
        · have hns : ¬(R.ets l = R.ets r ∧ l ≠ r) := by rintro ⟨-, hn⟩; exact hn h3
          simp [reconStep, hlook, h1, h2, h3, hns]
        · simp [reconStep, hlook, h1, h2, h3, heq]

/-! ## Claims -/

/-- C1: for every id present in both snapshots the reconciler compares
last-modified timestamps; a strictly newer remote copy yields a local update
built from the remote entity's fields and one synced count, a strictly newer
local copy yields a remote upload of the local entity and one synced count —
for the task and for the session reconciliation alike. -/
theorem c1_ordered_timestamp_resolution :
    (∀ (st : RState Task) (now : Nat) (fresh : Nat → String) (r l : Task),
      lookupId Task.id r.id st.remaining = some l →
      (l.updated_at < r.updated_at →
        reconStep taskRecon now fresh st r
          = { st with
              store := updById Task.id r.id
                (fun t => update_task t (taskUpdateRequestOf r) now) st.store
              remaining := eraseId Task.id r.id st.remaining
              synced := st.synced + 1 })
      ∧ (r.updated_at < l.updated_at →
        reconStep taskRecon now fresh st r
          = { st with
              remaining := eraseId Task.id r.id st.remaining
              puts := st.puts ++ [l]
              synced := st.synced + 1 }))
    ∧ (∀ (st : RState PomodoroSession) (now : Nat) (fresh : Nat → String)
        (r l : PomodoroSession),
      lookupId PomodoroSession.id r.id st.remaining = some l →
      (l.updated_at < r.updated_at →
        reconStep sessionRecon now fresh st r
          = { st with
              store := updById PomodoroSession.id r.id
                (fun s => update_pomodoro_session s (sessionUpdateRequestOf r) now) st.store
              remaining := eraseId PomodoroSession.id r.id st.remaining
              synced := st.synced + 1 })
      ∧ (r.updated_at < l.updated_at →
        reconStep sessionRecon now fresh st r
          = { st with
              remaining := eraseId PomodoroSession.id r.id st.remaining
              puts := st.puts ++ [l]
              synced := st.synced + 1 })) := by
  constructor
  · intro st now fresh r l hlook
    exact ⟨fun h => reconStep_matched_remote_newer taskRecon now fresh st r l hlook h,
      fun h => reconStep_matched_local_newer taskRecon now fresh st r l hlook h⟩
  · intro st now fresh r l hlook
    exact ⟨fun h => reconStep_matched_remote_newer sessionRecon now fresh st r l hlook h,
      fun h => reconStep_matched_local_newer sessionRecon now fresh st r l hlook h⟩

theorem c1_witness :
    lookupId Task.id (mkTask "a" 3 "t" none).id
        (⟨[mkTask "a" 1 "t" none], [mkTask "a" 1 "t" none], [], 0, 0, 0⟩ :
          RState Task).remaining
      = some (mkTask "a" 1 "t" none)
    ∧ (mkTask "a" 1 "t" none).updated_at < (mkTask "a" 3 "t" none).updated_at
    ∧ reconStep taskRecon 5 (fun _ => "f")
        ⟨[mkTask "a" 1 "t" none], [mkTask "a" 1 "t" none], [], 0, 0, 0⟩
        (mkTask "a" 3 "t" none)
      = { store := updById Task.id (mkTask "a" 3 "t" none).id
            (fun t => update_task t (taskUpdateRequestOf (mkTask "a" 3 "t" none)) 5)
            [mkTask "a" 1 "t" none]
          remaining := eraseId Task.id (mkTask "a" 3 "t" none).id [mkTask "a" 1 "t" none]
          puts := []
          synced := 1
          conflicts := 0
          k := 0 } :=
  ⟨by decide, by decide,
    (c1_ordered_timestamp_resolution.1
      ⟨[mkTask "a" 1 "t" none], [mkTask "a" 1 "t" none], [], 0, 0, 0⟩ 5 (fun _ => "f")
      (mkTask "a" 3 "t" none) (mkTask "a" 1 "t" none) (by decide)).1 (by decide)⟩

/-- C2: for a pair with the same id and equal last-modified timestamps the
reconciler compares full content; differing content counts exactly one
conflict and issues a local update with the remote entity's fields (remote
wins); identical content is a no-op.  The final conjuncts show a conflict is
counted if and only if some matched pair ties with differing content. -/
theorem c2_tie_break_conflict_detection :
    (∀ (st : RState Task) (now : Nat) (fresh : Nat → String) (r l : Task),
      lookupId Task.id r.id st.remaining = some l →
      l.updated_at = r.updated_at →
      ((l ≠ r →
        reconStep taskRecon now fresh st r
          = { st with
              store := updById Task.id r.id
                (fun t => update_task t (taskUpdateRequestOf r) now) st.store
              remaining := eraseId Task.id r.id st.remaining
              conflicts := st.conflicts + 1 })
      ∧ (l = r →
        reconStep taskRecon now fresh st r
          = { st with remaining := eraseId Task.id r.id st.remaining })))
    ∧ (∀ (st : RState PomodoroSession) (now : Nat) (fresh : Nat → String)
        (r l : PomodoroSession),
      lookupId PomodoroSession.id r.id st.remaining = some l →
      l.updated_at = r.updated_at →
      ((l ≠ r →
        reconStep sessionRecon now fresh st r
          = { st with
              store := updById PomodoroSession.id r.id
                (fun s => update_pomodoro_session s (sessionUpdateRequestOf r) now) st.store
              remaining := eraseId PomodoroSession.id r.id st.remaining
              conflicts := st.conflicts + 1 })
      ∧ (l = r →
        reconStep sessionRecon now fresh st r
          = { st with remaining := eraseId PomodoroSession.id r.id st.remaining })))
    ∧ (∀ (st : RState Task) (now : Nat) (fresh : Nat → String) (r : Task),
      (reconStep taskRecon now fresh st r).conflicts
        = st.conflicts + conflictDelta Task.id Task.updated_at st.remaining r)
    ∧ (∀ (st : RState PomodoroSession) (now : Nat) (fresh : Nat → String)
        (r : PomodoroSession),
      (reconStep sessionRecon now fresh st r).conflicts
        = st.conflicts
          + conflictDelta PomodoroSession.id PomodoroSession.updated_at st.remaining r) := by
  refine ⟨?_, ?_, ?_, ?_⟩
  · intro st now fresh r l hlook heq
    exact ⟨fun hne => reconStep_tie_diff taskRecon now fresh st r l hlook heq hne,
      fun hsame => reconStep_tie_same taskRecon now fresh st r l hlook heq hsame⟩
  · intro st now fresh r l hlook heq
    exact ⟨fun hne => reconStep_tie_diff sessionRecon now fresh st r l hlook heq hne,
      fun hsame => reconStep_tie_same sessionRecon now fresh st r l hlook heq hsame⟩
  · intro st now fresh r
    exact reconStep_conflicts_char taskRecon now fresh st r
  · intro st now fresh r
    exact reconStep_conflicts_char sessionRecon now fresh st r

theorem c2_witness :
    lookupId Task.id (mkTask "a" 2 "v" none).id
        (⟨[mkTask "a" 2 "u" none], [mkTask "a" 2 "u" none], [], 0, 0, 0⟩ :
          RState Task).remaining
      = some (mkTask "a" 2 "u" none)
    ∧ (mkTask "a" 2 "u" none).updated_at = (mkTask "a" 2 "v" none).updated_at
    ∧ mkTask "a" 2 "u" none ≠ mkTask "a" 2 "v" none
    ∧ reconStep taskRecon 5 (fun _ => "f")
        ⟨[mkTask "a" 2 "u" none], [mkTask "a" 2 "u" none], [], 0, 0, 0⟩
        (mkTask "a" 2 "v" none)
      = { store := updById Task.id (mkTask "a" 2 "v" none).id
            (fun t => update_task t (taskUpdateRequestOf (mkTask "a" 2 "v" none)) 5)
            [mkTask "a" 2 "u" none]
          remaining := eraseId Task.id (mkTask "a" 2 "v" none).id [mkTask "a" 2 "u" none]
          puts := []
          synced := 0
          conflicts := 1
          k := 0 } :=
  ⟨by decide, by decide, by decide,
    (c2_tie_break_conflict_detection.1
      ⟨[mkTask "a" 2 "u" none], [mkTask "a" 2 "u" none], [], 0, 0, 0⟩ 5 (fun _ => "f")
      (mkTask "a" 2 "v" none) (mkTask "a" 2 "u" none) (by decide) (by decide)).1 (by decide)⟩

/-- C3: a sync run succeeds if and only if its error list is empty; a run
whose three phases all succeed has `success = true` no matter how many
conflicts were counted. -/
theorem c3_success_iff_errors_empty :
    (∀ (tr sr : Except String (Nat × Nat)) (setr : Except String Unit) (now : Nat),
      ((sync_data tr sr setr now).success = true
        ↔ (sync_data tr sr setr now).errors = []))
    ∧ (∀ (s1 c1 s2 c2 now : Nat),
      (sync_data (Except.ok (s1, c1)) (Except.ok (s2, c2)) (Except.ok ()) now).success = true
      ∧ (sync_data (Except.ok (s1, c1)) (Except.ok (s2, c2)) (Except.ok ()) now).conflicts
          = c1 + c2) := by
  constructor
  · intro tr sr setr now
    cases tr <;> cases sr <;> cases setr <;> simp [sync_data]
  · intro s1 c1 s2 c2 now
    exact ⟨rfl, rfl⟩

/-- C4: every phase contributes to the result independently: the error list
holds exactly one formatted entry per failing phase in phase order, a
failing phase leaves its counts at zero, and the counts contributed by one
phase do not depend on the outcomes of the other phases (so a failure never
prevents the others from contributing). -/
theorem c4_phase_isolation :
    ∀ (tr sr : Except String (Nat × Nat)) (setr : Except String Unit) (now : Nat),
      (sync_data tr sr setr now).errors
        = (match tr with
            | Except.error e => ["Task sync error: " ++ e]
            | Except.ok _ => [])
          ++ (match sr with
            | Except.error e => ["Session sync error: " ++ e]
            | Except.ok _ => [])
          ++ (match setr with
            | Except.error e => ["Settings sync error: " ++ e]
            | Except.ok _ => [])
      ∧ (sync_data tr sr setr now).synced_tasks
          = (match tr with
            | Except.ok p => p.1
            | Except.error _ => 0)
      ∧ (sync_data tr sr setr now).synced_sessions
          = (match sr with
            | Except.ok p => p.1
            | Except.error _ => 0)
      ∧ (∀ (tr2 : Except String (Nat × Nat)) (setr2 : Except String Unit),
          (sync_data tr2 sr setr2 now).synced_sessions
            = (sync_data tr sr setr now).synced_sessions)
      ∧ (∀ (sr2 : Except String (Nat × Nat)) (setr2 : Except String Unit),
          (sync_data tr sr2 setr2 now).synced_tasks
            = (sync_data tr sr setr now).synced_tasks) :=
  fun _ _ _ _ => ⟨rfl, rfl, rfl, fun _ _ => rfl, fun _ _ => rfl⟩

/-- C9: with no remote settings record the local aggregate is uploaded
verbatim and the local copy is left untouched; with a remote record the
local aggregate is overwritten wholesale by the remote one with nothing
uploaded and no comparison; the settings phase never contributes to the
conflict count. -/
theorem c9_settings_reconciliation :
    (∀ ls : Settings,
      sync_settings ls none = { localAfter := ls, uploaded := some ls })
    ∧ (∀ ls rs : Settings,
      sync_settings ls (some rs) = { localAfter := rs, uploaded := none })
    ∧ (∀ (tr sr : Except String (Nat × Nat)) (setr setr2 : Except String Unit) (now : Nat),
      (sync_data tr sr setr now).conflicts = (sync_data tr sr setr2 now).conflicts) :=
  ⟨fun _ => rfl, fun _ _ => rfl, fun _ _ _ _ _ => rfl⟩

/-! ## Further facts about the created rows and tie-only runs -/

theorem createRun_length (R : Recon α) (now : Nat) (fresh : Nat → String)
    (k : Nat) (rs : List α) : (createRun R now fresh k rs).length = rs.length := by
  induction rs generalizing k with
  | nil => rfl
  | cons r rs ih => simp [createRun, ih]

theorem createRun_getElem (R : Recon α) (now : Nat) (fresh : Nat → String)
    (k i : Nat) (rs : List α) :
    (createRun R now fresh k rs)[i]?
      = (rs[i]?).map fun r => R.createLocal now (fresh (k + i)) r := by
  induction rs generalizing k i with
  | nil => simp [createRun]
  | cons r rs ih =>
    cases i with
    | zero => simp [createRun]
    | succ n =>
      have harith : k + 1 + n = k + (n + 1) := by omega
      simp only [createRun, List.getElem?_cons_succ, ih (k + 1) n, harith]

theorem tsDiffB_eq_false_of_tieDiffB (R : Recon α) [DecidableEq α]
    (locals : List α) (r : α) (h : tieDiffB R locals r = true) :
    tsDiffB R locals r = false := by
  unfold tieDiffB at h
  unfold tsDiffB
  cases hl : lookupId R.eid (R.eid r) locals with
  | none => rfl
  | some l =>
    rw [hl] at h
    rw [Bool.and_eq_true] at h
    have heq : R.ets l = R.ets r := by
      have := h.1
      simpa using this
    simpa using heq

theorem lookup_isSome_of_tieDiffB (R : Recon α) [DecidableEq α]
    (locals : List α) (r : α) (h : tieDiffB R locals r = true) :
    (lookupId R.eid (R.eid r) locals).isNone = false := by
  unfold tieDiffB at h
  cases hl : lookupId R.eid (R.eid r) locals with
  | none => rw [hl] at h; cases h
  | some l => rfl

theorem reconRun_tie_only (R : Recon α) [DecidableEq α]
    (hUid : ∀ now r l, R.eid (R.updLocal now r l) = R.eid l)
    (hCid : ∀ now i r, R.eid (R.createLocal now i r) = i)
    (locals remotes : List α) (now : Nat) (fresh : Nat → String) (k0 : Nat)
    (hL : (locals.map R.eid).Nodup)
    (hR : (remotes.map R.eid).Nodup)
    (hF : ∀ n, fresh n ∉ remotes.map R.eid)
    (hties : ∀ r ∈ remotes, tieDiffB R locals r = true)
    (hlocal : localOnly R locals remotes = []) :
    (reconRun R locals remotes now fresh k0).synced = 0
      ∧ (reconRun R locals remotes now fresh k0).conflicts = remotes.length := by
  rw [reconRun_eq R hUid hCid locals remotes now fresh k0 hL hR hF]
  have hts : remotes.filter (tsDiffB R locals) = [] := by
    rw [List.filter_eq_nil_iff]
    intro r hr htrue
    rw [tsDiffB_eq_false_of_tieDiffB R locals r (hties r hr)] at htrue
    cases htrue
  have hnew : newRemotes R locals remotes = [] := by
    unfold newRemotes
    rw [List.filter_eq_nil_iff]
    intro r hr htrue
    rw [lookup_isSome_of_tieDiffB R locals r (hties r hr)] at htrue
    cases htrue
  have htie : remotes.filter (tieDiffB R locals) = remotes :=
    List.filter_eq_self.mpr hties
  constructor
  · simp [hts, hnew, hlocal]
  · simp [htie]

/-- C6: under unique snapshot ids and a fresh uuid supply, a task run creates
locally exactly one row per remote entity whose id has no local counterpart
— the row built by `create_task` from the request carrying that remote
entity's fields — and `POST`s exactly the local entities whose id has no
remote counterpart, each direction counted once in `synced`. -/
theorem c6_bidirectional_discovery
    (locals remotes : List Task) (now : Nat) (fresh : Nat → String) (k0 : Nat)
    (hL : (locals.map Task.id).Nodup)
    (hR : (remotes.map Task.id).Nodup)
    (hF : ∀ n, fresh n ∉ remotes.map Task.id) :
    (sync_tasks locals remotes now fresh k0).store
      = locals.map (mergedLocal taskRecon now remotes)
        ++ createRun taskRecon now fresh k0 (newRemotes taskRecon locals remotes)
    ∧ (sync_tasks locals remotes now fresh k0).posts
        = localOnly taskRecon locals remotes
    ∧ (sync_tasks locals remotes now fresh k0).synced
        = (remotes.filter (tsDiffB taskRecon locals)).length
          + (newRemotes taskRecon locals remotes).length
          + (localOnly taskRecon locals remotes).length
    ∧ (createRun taskRecon now fresh k0 (newRemotes taskRecon locals remotes)).length
        = (newRemotes taskRecon locals remotes).length
    ∧ (∀ i : Nat,
        (createRun taskRecon now fresh k0 (newRemotes taskRecon locals remotes))[i]?
          = ((newRemotes taskRecon locals remotes)[i]?).map
              fun r => create_task (taskCreateRequestOf r) (fresh (k0 + i)) now) := by
  have h := reconRun_eq taskRecon taskRecon_upd_id taskRecon_create_id
    locals remotes now fresh k0 hL hR hF
  refine ⟨?_, ?_, ?_, createRun_length taskRecon now fresh k0 _,
    fun i => createRun_getElem taskRecon now fresh k0 i _⟩
  · show (reconRun taskRecon locals remotes now fresh k0).store = _
    rw [h]
  · show (reconRun taskRecon locals remotes now fresh k0).posts = _
    rw [h]
  · show (reconRun taskRecon locals remotes now fresh k0).synced = _
    rw [h]

theorem c6_witness :
    (([mkTask "a" 1 "t" none].map Task.id).Nodup)
    ∧ (([mkTask "b" 2 "t" none].map Task.id).Nodup)
    ∧ (sync_tasks [mkTask "a" 1 "t" none] [mkTask "b" 2 "t" none] 5 (fun _ => "f") 0).posts
        = [mkTask "a" 1 "t" none]
    ∧ (sync_tasks [mkTask "a" 1 "t" none] [mkTask "b" 2 "t" none] 5 (fun _ => "f") 0).synced
        = 2 := by
  have h := c6_bidirectional_discovery [mkTask "a" 1 "t" none] [mkTask "b" 2 "t" none]
    5 (fun _ => "f") 0 (by decide) (by decide)
    (fun n => (by decide : ("f" : String) ∉ List.map Task.id [mkTask "b" 2 "t" none]))
  refine ⟨by decide, by decide, ?_, ?_⟩
  · rw [h.2.1]
    decide
  · rw [h.2.2.1]
    decide

/-- C10: the synced count of a run is the number of ordered-timestamp
resolutions plus the creates in both directions — the conflict path adds
nothing to it — so a run in which every remote entity ties with a
different-content local copy and no local entity is unmatched reports
`synced = 0` and one conflict per entity; this holds for tasks and for
sessions. -/
theorem c10_conflict_path_not_synced :
    (∀ (locals remotes : List Task) (now : Nat) (fresh : Nat → String) (k0 : Nat),
      (locals.map Task.id).Nodup →
      (remotes.map Task.id).Nodup →
      (∀ n, fresh n ∉ remotes.map Task.id) →
      ((sync_tasks locals remotes now fresh k0).synced
          = (remotes.filter (tsDiffB taskRecon locals)).length
            + (newRemotes taskRecon locals remotes).length
            + (localOnly taskRecon locals remotes).length
        ∧ (sync_tasks locals remotes now fresh k0).conflicts
            = (remotes.filter (tieDiffB taskRecon locals)).length
        ∧ ((∀ r ∈ remotes, tieDiffB taskRecon locals r = true) →
            localOnly taskRecon locals remotes = [] →
            (sync_tasks locals remotes now fresh k0).synced = 0
              ∧ (sync_tasks locals remotes now fresh k0).conflicts = remotes.length)))
    ∧ (∀ (locals remotes : List PomodoroSession) (now : Nat) (fresh : Nat → String)
        (k0 : Nat),
      (locals.map PomodoroSession.id).Nodup →
      (remotes.map PomodoroSession.id).Nodup →
      (∀ n, fresh n ∉ remotes.map PomodoroSession.id) →
      ((sync_pomodoro_sessions locals remotes now fresh k0).synced
          = (remotes.filter (tsDiffB sessionRecon locals)).length
            + (newRemotes sessionRecon locals remotes).length
            + (localOnly sessionRecon locals remotes).length
        ∧ (sync_pomodoro_sessions locals remotes now fresh k0).conflicts
            = (remotes.filter (tieDiffB sessionRecon locals)).length
        ∧ ((∀ r ∈ remotes, tieDiffB sessionRecon locals r = true) →
            localOnly sessionRecon locals remotes = [] →
            (sync_pomodoro_sessions locals remotes now fresh k0).synced = 0
              ∧ (sync_pomodoro_sessions locals remotes now fresh k0).conflicts
                  = remotes.length))) := by
  constructor
  · intro locals remotes now fresh k0 hL hR hF
    have h := reconRun_eq taskRecon taskRecon_upd_id taskRecon_create_id
      locals remotes now fresh k0 hL hR hF
    refine ⟨?_, ?_, fun hties hlocal => reconRun_tie_only taskRecon
      taskRecon_upd_id taskRecon_create_id locals remotes now fresh k0
      hL hR hF hties hlocal⟩
    · show (reconRun taskRecon locals remotes now fresh k0).synced = _
      rw [h]
    · show (reconRun taskRecon locals remotes now fresh k0).conflicts = _
      rw [h]
  · intro locals remotes now fresh k0 hL hR hF
    have h := reconRun_eq sessionRecon sessionRecon_upd_id sessionRecon_create_id
      locals remotes now fresh k0 hL hR hF
    refine ⟨?_, ?_, fun hties hlocal => reconRun_tie_only sessionRecon
      sessionRecon_upd_id sessionRecon_create_id locals remotes now fresh k0
      hL hR hF hties hlocal⟩
    · show (reconRun sessionRecon locals remotes now fresh k0).synced = _
      rw [h]
    · show (reconRun sessionRecon locals remotes now fresh k0).conflicts = _
      rw [h]

theorem c10_witness :
    (([mkTask "a" 2 "u" none].map Task.id).Nodup)
    ∧ tieDiffB taskRecon [mkTask "a" 2 "u" none] (mkTask "a" 2 "v" none) = true
    ∧ (sync_tasks [mkTask "a" 2 "u" none] [mkTask "a" 2 "v" none] 5 (fun _ => "f") 0).synced
        = 0
    ∧ (sync_tasks [mkTask "a" 2 "u" none] [mkTask "a" 2 "v" none] 5 (fun _ => "f") 0).conflicts
        = 1 := by
  have h := (c10_conflict_path_not_synced.1 [mkTask "a" 2 "u" none] [mkTask "a" 2 "v" none]
    5 (fun _ => "f") 0 (by decide) (by decide)
    (fun n => (by decide : ("f" : String) ∉ List.map Task.id [mkTask "a" 2 "v" none]))).2.2
    (by decide) (by decide)
  exact ⟨by decide, by decide, h.1, h.2⟩

/-! ## A run on snapshots diverging in a single remote-newer entity -/

theorem reconRun_single_newer (R : Recon α) [DecidableEq α]
    (hUid : ∀ now r l, R.eid (R.updLocal now r l) = R.eid l)
    (hCid : ∀ now i r, R.eid (R.createLocal now i r) = i)
    (A B : List α) (l r : α) (now : Nat) (fresh : Nat → String) (k0 : Nat)
    (hid : R.eid l = R.eid r)
    (hts : R.ets l < R.ets r)
    (hL : ((A ++ l :: B).map R.eid).Nodup)
    (hF : ∀ n, fresh n ∉ (A ++ r :: B).map R.eid) :
    reconRun R (A ++ l :: B) (A ++ r :: B) now fresh k0
      = { store := A ++ R.updLocal now r l :: B
          puts := []
          posts := []
          synced := 1
          conflicts := 0 } := by
  have hR : ((A ++ r :: B).map R.eid).Nodup := by
    have hmapeq : (A ++ r :: B).map R.eid = (A ++ l :: B).map R.eid := by
      simp only [List.map_append, List.map_cons, hid]
    rw [hmapeq]
    exact hL
  have hmemL : ∀ x, x ∈ A ++ l :: B → lookupId R.eid (R.eid x) (A ++ l :: B) = some x :=
    fun x hx => lookupId_self hL hx
  have hmemR : ∀ y, y ∈ A ++ r :: B → lookupId R.eid (R.eid y) (A ++ r :: B) = some y :=
    fun y hy => lookupId_self hR hy
  have hlookRl : lookupId R.eid (R.eid l) (A ++ r :: B) = some r := by
    rw [hid]
    exact hmemR r (by simp)
  have hlookLr : lookupId R.eid (R.eid r) (A ++ l :: B) = some l := by
    rw [← hid]
    exact hmemL l (by simp)
  have hselfmerge : ∀ x, lookupId R.eid (R.eid x) (A ++ r :: B) = some x →
      mergedLocal R now (A ++ r :: B) x = x := by
    intro x hx
    unfold mergedLocal
    rw [hx]
    dsimp only
    rw [if_neg]
    rintro (hc | ⟨-, hn⟩)
    · exact Nat.lt_irrefl _ hc
    · exact hn rfl
  have hmerged : (A ++ l :: B).map (mergedLocal R now (A ++ r :: B))
      = A ++ R.updLocal now r l :: B := by
    rw [List.map_append, List.map_cons]
    have hA : A.map (mergedLocal R now (A ++ r :: B)) = A := by
      rw [List.map_congr_left fun x hx =>
        hselfmerge x (hmemR x (List.mem_append_left _ hx))]
      exact List.map_id A
    have hB : B.map (mergedLocal R now (A ++ r :: B)) = B := by
      rw [List.map_congr_left fun x hx =>
        hselfmerge x (hmemR x (List.mem_append_right _ (List.mem_cons_of_mem r hx)))]
      exact List.map_id B
    have hl : mergedLocal R now (A ++ r :: B) l = R.updLocal now r l := by
      unfold mergedLocal
      rw [hlookRl]
      dsimp only
      rw [if_pos (Or.inl hts)]
    rw [hA, hB, hl]
  have hnew : newRemotes R (A ++ l :: B) (A ++ r :: B) = [] := by
    unfold newRemotes
    rw [List.filter_eq_nil_iff]
    intro y hy
    rcases List.mem_append.mp hy with hyA | hyrB
    · rw [hmemL y (List.mem_append_left _ hyA)]
      simp
    · rcases List.mem_cons.mp hyrB with rfl | hyB
      · rw [hlookLr]
        simp
      · rw [hmemL y (List.mem_append_right _ (List.mem_cons_of_mem l hyB))]
        simp
  have honly : localOnly R (A ++ l :: B) (A ++ r :: B) = [] := by
    unfold localOnly
    rw [List.filter_eq_nil_iff]
    intro x hx
    rcases List.mem_append.mp hx with hxA | hxlB
    · rw [hmemR x (List.mem_append_left _ hxA)]
      simp
    · rcases List.mem_cons.mp hxlB with rfl | hxB
      · rw [hlookRl]
        simp
      · rw [hmemR x (List.mem_append_right _ (List.mem_cons_of_mem r hxB))]
        simp
  have hputs : putsList R (A ++ l :: B) (A ++ r :: B) = [] := by
    unfold putsList
    rw [List.filterMap_eq_nil_iff]
    intro y hy
    rcases List.mem_append.mp hy with hyA | hyrB
    · rw [hmemL y (List.mem_append_left _ hyA)]
      simp
    · rcases List.mem_cons.mp hyrB with rfl | hyB
      · rw [hlookLr]
        simp [Nat.lt_asymm hts]
      · rw [hmemL y (List.mem_append_right _ (List.mem_cons_of_mem l hyB))]
        simp
  have htsA : A.filter (tsDiffB R (A ++ l :: B)) = [] := by
    rw [List.filter_eq_nil_iff]
    intro y hyA
    unfold tsDiffB
    rw [hmemL y (List.mem_append_left _ hyA)]
    simp
  have htsB : B.filter (tsDiffB R (A ++ l :: B)) = [] := by
    rw [List.filter_eq_nil_iff]
    intro y hyB
    unfold tsDiffB
    rw [hmemL y (List.mem_append_right _ (List.mem_cons_of_mem l hyB))]
    simp
  have htsr : tsDiffB R (A ++ l :: B) r = true := by
    unfold tsDiffB
    rw [hlookLr]
    simp [Nat.ne_of_lt hts]
  have htsf : (A ++ r :: B).filter (tsDiffB R (A ++ l :: B)) = [r] := by
    rw [List.filter_append, htsA, List.filter_cons_of_pos htsr, htsB]
    rfl
  have htief : (A ++ r :: B).filter (tieDiffB R (A ++ l :: B)) = [] := by
    rw [List.filter_eq_nil_iff]
    intro y hy
    unfold tieDiffB
    rcases List.mem_append.mp hy with hyA | hyrB
    · rw [hmemL y (List.mem_append_left _ hyA)]
      simp
    · rcases List.mem_cons.mp hyrB with rfl | hyB
      · rw [hlookLr]
        simp [Nat.ne_of_lt hts]
      · rw [hmemL y (List.mem_append_right _ (List.mem_cons_of_mem l hyB))]
        simp
  rw [reconRun_eq R hUid hCid _ _ now fresh k0 hL hR hF,
    hmerged, hnew, honly, hputs, htsf, htief]
  simp [createRun]

/-- C7 (amended): when the snapshots diverge only in one entity whose remote
copy is strictly newer, one task run issues exactly one local update built
by `update_task` from the remote entity's fields and touches nothing else on
either side — no uploads, no creates, `synced = 1`, `conflicts = 0`.  (The
updated local row keeps its own `created_at`, keeps optional fields the
remote left empty, and gets `updated_at = now`, so it need not equal the
remote copy byte-for-byte — see the counterexample.) -/
theorem c7_single_remote_newer_frame
    (A B : List Task) (l r : Task) (now : Nat) (fresh : Nat → String) (k0 : Nat)
    (hid : l.id = r.id)
    (hts : l.updated_at < r.updated_at)
    (hL : ((A ++ l :: B).map Task.id).Nodup)
    (hF : ∀ n, fresh n ∉ (A ++ r :: B).map Task.id) :
    sync_tasks (A ++ l :: B) (A ++ r :: B) now fresh k0
      = { store := A ++ update_task l (taskUpdateRequestOf r) now :: B
          puts := []
          posts := []
          synced := 1
          conflicts := 0 } :=
  reconRun_single_newer taskRecon taskRecon_upd_id taskRecon_create_id
    A B l r now fresh k0 hid hts hL hF

/-- C7 (counterexample): a remote-newer update does not make the local copy
equal the remote copy exactly: the local copy keeps its description when the
remote one is empty, and its `updated_at` is stamped with the sync wall
clock, not the remote timestamp. -/
theorem c7_counterexample :
    (sync_tasks [mkTask "a" 1 "t" (some "x")] [mkTask "a" 2 "t" none]
        5 (fun _ => "f") 0).store
      ≠ [mkTask "a" 2 "t" none]
    ∧ (sync_tasks [mkTask "a" 1 "t" (some "x")] [mkTask "a" 2 "t" none]
        5 (fun _ => "f") 0).store.map Task.description = [some "x"]
    ∧ (sync_tasks [mkTask "a" 1 "t" (some "x")] [mkTask "a" 2 "t" none]
        5 (fun _ => "f") 0).store.map Task.updated_at = [5]
    ∧ (sync_tasks [mkTask "a" 1 "t" (some "x")] [mkTask "a" 2 "t" none]
        5 (fun _ => "f") 0).synced = 1 := by
  decide

theorem c7_witness :
    (([mkTask "a" 1 "t" none].map Task.id).Nodup)
    ∧ (mkTask "a" 1 "t" none).updated_at < (mkTask "a" 3 "t" none).updated_at
    ∧ sync_tasks [mkTask "a" 1 "t" none] [mkTask "a" 3 "t" none] 5 (fun _ => "f") 0
        = { store := [update_task (mkTask "a" 1 "t" none)
              (taskUpdateRequestOf (mkTask "a" 3 "t" none)) 5]
            puts := []
            posts := []
            synced := 1
            conflicts := 0 } := by
  refine ⟨by decide, by decide, ?_⟩
  exact c7_single_remote_newer_frame [] [] (mkTask "a" 1 "t" none) (mkTask "a" 3 "t" none)
    5 (fun _ => "f") 0 (by decide) (by decide) (by decide)
    (fun n => (by decide :
      ("f" : String) ∉ List.map Task.id ([] ++ mkTask "a" 3 "t" none :: [])))

theorem applyPuts_eq (f : α → String) :
    ∀ (ps : List α), (ps.map f).Nodup → ∀ (remote : List α),
      ps.foldl (applyPut f) remote
        = remote.map fun t => (lookupId f (f t) ps).getD t := by
  intro ps
  induction ps with
  | nil =>
    intro _ remote
    simp [lookupId]
  | cons p ps ih =>
    intro hnd remote
    rw [List.map_cons, List.nodup_cons] at hnd
    rw [List.foldl_cons, ih hnd.2]
    unfold applyPut
    rw [List.map_map]
    refine List.map_congr_left fun t ht => ?_
    by_cases htp : f t = f p
    · have hnone : lookupId f (f p) ps = none :=
        (lookupId_eq_none_iff _ _ _).mpr
          fun x hx he => hnd.1 (he ▸ List.mem_map_of_mem f hx)
      simp only [Function.comp_apply, if_pos htp, lookupId, htp, if_true]
      rw [hnone]
      rfl
    · have hpt : ¬f p = f t := fun he => htp he.symm
      simp only [Function.comp_apply, if_neg htp, lookupId]
      rw [if_neg hpt]

theorem putsList_sublist (R : Recon α) (locals : List α) :
    ∀ remotes : List α,
      ((putsList R locals remotes).map R.eid).Sublist (remotes.map R.eid) := by
  intro remotes
  induction remotes with
  | nil => simp [putsList]
  | cons r rs ih =>
    unfold putsList at ih ⊢
    cases h : lookupId R.eid (R.eid r) locals with
    | none =>
      simp only [List.filterMap_cons, h, List.map_cons]
      exact ih.cons _
    | some l =>
      by_cases hts : R.ets r < R.ets l
      · simp only [List.filterMap_cons, h, if_pos hts, List.map_cons,
          (lookupId_eq_some h).1]
        exact ih.cons₂ _
      · simp only [List.filterMap_cons, h, if_neg hts, List.map_cons]
        exact ih.cons _

theorem lookupId_putsList (R : Recon α) (locals : List α) :
    ∀ {remotes : List α}, (remotes.map R.eid).Nodup → ∀ {t : α}, t ∈ remotes →
      lookupId R.eid (R.eid t) (putsList R locals remotes)
        = (match lookupId R.eid (R.eid t) locals with
          | some l => if R.ets t < R.ets l then some l else none
          | none => none) := by
  intro remotes
  induction remotes with
  | nil =>
    intro _ t ht
    cases ht
  | cons r rs ih =>
    intro hnd t ht
    rw [List.map_cons, List.nodup_cons] at hnd
    have hrestnone : ∀ i, i ∈ rs.map R.eid → False → True := fun _ _ h => h.elim
    rcases List.mem_cons.mp ht with rfl | ht2
    · have htail : lookupId R.eid (R.eid t) (putsList R locals rs) = none := by
        rw [lookupId_eq_none_iff]
        intro x hx he
        have : R.eid x ∈ rs.map R.eid := by
          have hmem : R.eid x ∈ (putsList R locals rs).map R.eid :=
            List.mem_map_of_mem R.eid hx
          exact (putsList_sublist R locals rs).subset hmem
        rw [he] at this
        exact hnd.1 this
      cases h : lookupId R.eid (R.eid t) locals with
      | none =>
        unfold putsList
        simp only [List.filterMap_cons, h]
        exact htail
      | some l =>
        by_cases hts : R.ets t < R.ets l
        · unfold putsList
          simp only [List.filterMap_cons, h, if_pos hts, lookupId,
            (lookupId_eq_some h).1, if_true]
        · unfold putsList
          simp only [List.filterMap_cons, h, if_neg hts]
          exact htail
    · have hne : R.eid r ≠ R.eid t := by
        intro he
        exact hnd.1 (he ▸ List.mem_map_of_mem R.eid ht2)
      cases h : lookupId R.eid (R.eid r) locals with
      | none =>
        unfold putsList
        simp only [List.filterMap_cons, h]
        exact ih hnd.2 ht2
      | some l =>
        by_cases hts : R.ets r < R.ets l
        · have hlr : R.eid l = R.eid r := (lookupId_eq_some h).1
          unfold putsList
          simp only [List.filterMap_cons, h, if_pos hts, lookupId, hlr]
          rw [if_neg hne]
          exact ih hnd.2 ht2
        · unfold putsList
          simp only [List.filterMap_cons, h, if_neg hts]
          exact ih hnd.2 ht2

theorem lookupId_createRun_none (R : Recon α)
    (hCid : ∀ now i r, R.eid (R.createLocal now i r) = i)
    {i : String} {fresh : Nat → String} (hf : ∀ n, fresh n ≠ i) (now : Nat) :
    ∀ (k : Nat) (rs : List α), lookupId R.eid i (createRun R now fresh k rs) = none := by
  intro k rs
  induction rs generalizing k with
  | nil => rfl
  | cons r rs ih =>
    simp only [createRun, lookupId, hCid]
    rw [if_neg (hf k)]
    exact ih (k + 1)

theorem lookupId_mergedStore_some (R : Recon α) [DecidableEq α]
    (hUid : ∀ now r l, R.eid (R.updLocal now r l) = R.eid l)
    {locals : List α} (remotes : List α) (now1 : Nat) (fresh : Nat → String) (k0 : Nat)
    {i : String} {l : α} (hloc : lookupId R.eid i locals = some l) :
    lookupId R.eid i (locals.map (mergedLocal R now1 remotes)
        ++ createRun R now1 fresh k0 (newRemotes R locals remotes))
      = some (mergedLocal R now1 remotes l) := by
  refine lookupId_append_of_some ?_ _
  rw [lookupId_map_pres (eid_mergedLocal R hUid now1 remotes) i locals, hloc]
  rfl

theorem lookupId_mergedStore_none (R : Recon α) [DecidableEq α]
    (hUid : ∀ now r l, R.eid (R.updLocal now r l) = R.eid l)
    (hCid : ∀ now i r, R.eid (R.createLocal now i r) = i)
    {locals : List α} (remotes : List α) (now1 : Nat) {fresh : Nat → String} (k0 : Nat)
    {i : String} (hloc : lookupId R.eid i locals = none)
    (hfi : ∀ n, fresh n ≠ i) :
    lookupId R.eid i (locals.map (mergedLocal R now1 remotes)
        ++ createRun R now1 fresh k0 (newRemotes R locals remotes)) = none := by
  rw [lookupId_append_of_none
    (by rw [lookupId_map_pres (eid_mergedLocal R hUid now1 remotes) i locals, hloc]; rfl) _]
  exact lookupId_createRun_none R hCid hfi now1 k0 _

/-- After one run, applying the issued uploads to the remote and running the
reconciler again counts no conflict: every pair either became identical
(uploads) or got a local timestamp `now1` strictly above every remote
timestamp (local writes). -/
theorem reconRun_second_conflicts_zero (R : Recon α) [DecidableEq α]
    (hUid : ∀ now r l, R.eid (R.updLocal now r l) = R.eid l)
    (hCid : ∀ now i r, R.eid (R.createLocal now i r) = i)
    (hUe : ∀ now r l, R.ets (R.updLocal now r l) = now)
    (locals remotes : List α) (now1 now2 : Nat) (fresh fresh2 : Nat → String)
    (k0 k2 : Nat)
    (hL : (locals.map R.eid).Nodup)
    (hR : (remotes.map R.eid).Nodup)
    (hF : ∀ n, fresh n ∉ remotes.map R.eid)
    (hclkR : ∀ y ∈ remotes, R.ets y < now1)
    (hL2 : (((reconRun R locals remotes now1 fresh k0).store).map R.eid).Nodup)
    (hR2 : ((remoteAfterRun R (reconRun R locals remotes now1 fresh k0) remotes).map
        R.eid).Nodup)
    (hF2 : ∀ n, fresh2 n ∉ (remoteAfterRun R (reconRun R locals remotes now1 fresh k0)
        remotes).map R.eid) :
    (reconRun R (reconRun R locals remotes now1 fresh k0).store
      (remoteAfterRun R (reconRun R locals remotes now1 fresh k0) remotes)
      now2 fresh2 k2).conflicts = 0 := by
  have h1 := reconRun_eq R hUid hCid locals remotes now1 fresh k0 hL hR hF
  have hnil : (remoteAfterRun R (reconRun R locals remotes now1 fresh k0) remotes).filter
      (tieDiffB R (reconRun R locals remotes now1 fresh k0).store) = [] := by
    rw [List.filter_eq_nil_iff]
    intro t ht htrue
    rw [h1] at ht htrue
    dsimp only at htrue
    simp only [remoteAfterRun] at ht
    have hpnodup : ((putsList R locals remotes).map R.eid).Nodup :=
      List.Nodup.sublist (putsList_sublist R locals remotes) hR
    rw [applyPuts_eq R.eid (putsList R locals remotes) hpnodup remotes] at ht
    rcases List.mem_append.mp ht with hput | hpost
    · rcases List.mem_map.mp hput with ⟨s, hs, hfa⟩
      have hPs := lookupId_putsList R locals hR hs
      cases hloc : lookupId R.eid (R.eid s) locals with
      | some l0 =>
        have hl0mem : l0 ∈ locals := (lookupId_eq_some hloc).2
        have hl0id : R.eid l0 = R.eid s := (lookupId_eq_some hloc).1
        have hre : lookupId R.eid (R.eid l0) remotes = some s := by
          rw [hl0id]
          exact lookupId_self hR hs
        by_cases hcomp : R.ets s < R.ets l0
        · rw [hPs, hloc] at hfa
          dsimp only at hfa
          rw [if_pos hcomp] at hfa
          simp only [Option.getD_some] at hfa
          subst hfa
          unfold tieDiffB at htrue
          rw [lookupId_mergedStore_some R hUid remotes now1 fresh k0
            (by rw [hl0id, hloc])] at htrue
          have hm : mergedLocal R now1 remotes l0 = l0 := by
            unfold mergedLocal
            rw [hre]
            dsimp only
            rw [if_neg]
            rintro (hc | ⟨he, -⟩)
            · exact Nat.lt_asymm hcomp hc
            · exact absurd he (by omega)
          rw [hm] at htrue
          rw [Bool.and_eq_true] at htrue
          have hne : l0 ≠ l0 := by simpa using htrue.2
          exact hne rfl
        · rw [hPs, hloc] at hfa
          dsimp only at hfa
          rw [if_neg hcomp] at hfa
          simp only [Option.getD_none] at hfa
          subst hfa
          unfold tieDiffB at htrue
          rw [lookupId_mergedStore_some R hUid remotes now1 fresh k0 hloc] at htrue
          by_cases hcond : R.ets l0 < R.ets s ∨ (R.ets l0 = R.ets s ∧ l0 ≠ s)
          · have hm : mergedLocal R now1 remotes l0 = R.updLocal now1 s l0 := by
              unfold mergedLocal
              rw [hre]
              dsimp only
              rw [if_pos hcond]
            rw [hm] at htrue
            rw [Bool.and_eq_true] at htrue
            have h2 := htrue.1
            rw [hUe] at h2
            have heq : now1 = R.ets s := by simpa using h2
            have := hclkR s hs
            omega
          · have hm : mergedLocal R now1 remotes l0 = l0 := by
              unfold mergedLocal
              rw [hre]
              dsimp only
              rw [if_neg hcond]
            rw [hm] at htrue
            rw [Bool.and_eq_true] at htrue
            have heq : R.ets l0 = R.ets s := by simpa using htrue.1
            have hls : l0 = s := by
              by_contra hne
              exact hcond (Or.inr ⟨heq, hne⟩)
            have hne2 : l0 ≠ s := by simpa using htrue.2
            exact hne2 hls
      | none =>
        rw [hPs, hloc] at hfa
        dsimp only at hfa
        simp only [Option.getD_none] at hfa
        subst hfa
        unfold tieDiffB at htrue
        rw [lookupId_mergedStore_none R hUid hCid remotes now1 k0 hloc
          (fun n he => hF n (by rw [he]; exact List.mem_map_of_mem R.eid hs))] at htrue
        cases htrue
    · have htl : t ∈ locals := List.mem_of_mem_filter hpost
      have hnone : lookupId R.eid (R.eid t) remotes = none := by
        have hmem := List.of_mem_filter hpost
        cases h : lookupId R.eid (R.eid t) remotes with
        | none => rfl
        | some x =>
          rw [h] at hmem
          cases hmem
      have hloct : lookupId R.eid (R.eid t) locals = some t := lookupId_self hL htl
      unfold tieDiffB at htrue
      rw [lookupId_mergedStore_some R hUid remotes now1 fresh k0 hloct,
        mergedLocal_eq_self R now1 hnone] at htrue
      rw [Bool.and_eq_true] at htrue
      have hne : t ≠ t := by simpa using htrue.2
      exact hne rfl
  rw [reconRun_eq R hUid hCid ((reconRun R locals remotes now1 fresh k0).store)
    (remoteAfterRun R (reconRun R locals remotes now1 fresh k0) remotes)
    now2 fresh2 k2 hL2 hR2 hF2]
  rw [show (remoteAfterRun R (reconRun R locals remotes now1 fresh k0) remotes).filter
      (tieDiffB R (reconRun R locals remotes now1 fresh k0).store) = [] from hnil]
  rfl

/-- C5 (amended): running the task reconciler twice with no third-party
mutation yields a second run with `conflicts = 0` (under a wall clock ahead
of every snapshot timestamp), but its synced count is not in general 0: a
local update stamps `updated_at` with the sync time, so the second run
re-uploads the entity, and a local create assigns a fresh uuid, so the
second run re-creates remote-only entities — see the counterexample. -/
theorem c5_second_run_conflict_free
    (locals remotes : List Task) (now1 now2 : Nat) (fresh fresh2 : Nat → String)
    (k0 k2 : Nat)
    (hL : (locals.map Task.id).Nodup)
    (hR : (remotes.map Task.id).Nodup)
    (hF : ∀ n, fresh n ∉ remotes.map Task.id)
    (hclkR : ∀ y ∈ remotes, y.updated_at < now1)
    (hL2 : (((sync_tasks locals remotes now1 fresh k0).store).map Task.id).Nodup)
    (hR2 : ((remoteAfterRun taskRecon (sync_tasks locals remotes now1 fresh k0)
        remotes).map Task.id).Nodup)
    (hF2 : ∀ n, fresh2 n ∉ (remoteAfterRun taskRecon
        (sync_tasks locals remotes now1 fresh k0) remotes).map Task.id) :
    (sync_tasks (sync_tasks locals remotes now1 fresh k0).store
      (remoteAfterRun taskRecon (sync_tasks locals remotes now1 fresh k0) remotes)
      now2 fresh2 k2).conflicts = 0 :=
  reconRun_second_conflicts_zero taskRecon taskRecon_upd_id taskRecon_create_id
    taskRecon_upd_ts locals remotes now1 now2 fresh fresh2 k0 k2
    hL hR hF hclkR hL2 hR2 hF2

/-- C5 (counterexample): the Entity Reconciler is not idempotent.  One task,
remote copy newer (`updated_at` 1 vs 0), clock 2: the first run updates the
local row, stamping `updated_at = 2`; the second run, on unchanged
snapshots, sees the local copy as strictly newer and uploads it, so its
synced count is 1, not 0. -/
theorem c5_counterexample :
    (sync_tasks
        (sync_tasks [mkTask "a" 0 "t" none] [mkTask "a" 1 "t" none]
          2 (fun _ => "f") 0).store
        (remoteAfterRun taskRecon
          (sync_tasks [mkTask "a" 0 "t" none] [mkTask "a" 1 "t" none]
            2 (fun _ => "f") 0)
          [mkTask "a" 1 "t" none])
        3 (fun _ => "f") 0).synced = 1
    ∧ (sync_tasks [mkTask "a" 0 "t" none] [mkTask "a" 1 "t" none]
        2 (fun _ => "f") 0).puts = []
    ∧ (sync_tasks [mkTask "a" 0 "t" none] [mkTask "a" 1 "t" none]
        2 (fun _ => "f") 0).posts = [] := by
  decide

theorem c5_witness :
    (([mkTask "a" 0 "t" none].map Task.id).Nodup)
    ∧ (([mkTask "a" 1 "t" none].map Task.id).Nodup)
    ∧ (sync_tasks
        (sync_tasks [mkTask "a" 0 "t" none] [mkTask "a" 1 "t" none]
          2 (fun _ => "f") 0).store
        (remoteAfterRun taskRecon
          (sync_tasks [mkTask "a" 0 "t" none] [mkTask "a" 1 "t" none]
            2 (fun _ => "f") 0)
          [mkTask "a" 1 "t" none])
        3 (fun _ => "f") 0).conflicts = 0 := by
  refine ⟨by decide, by decide, ?_⟩
  exact c5_second_run_conflict_free [mkTask "a" 0 "t" none] [mkTask "a" 1 "t" none]
    2 3 (fun _ => "f") (fun _ => "f") 0 0 (by decide) (by decide)
    (fun n => (by decide : ("f" : String) ∉ List.map Task.id [mkTask "a" 1 "t" none]))
    (by decide) (by decide) (by decide)
    (fun n => (by decide : ("f" : String) ∉ List.map Task.id
      (remoteAfterRun taskRecon
        (sync_tasks [mkTask "a" 0 "t" none] [mkTask "a" 1 "t" none] 2 (fun _ => "f") 0)
        [mkTask "a" 1 "t" none])))

theorem reconStepF_error_eq (R : Recon α) [DecidableEq α]
    {failAt : Option Nat} {now : Nat} {fresh : Nat → String} {st : FSt α} {r : α}
    {stE : FSt α} (h : reconStepF R failAt now fresh st r = Except.error stE) :
    stE = st ∧ failAt = some st.op := by
  unfold reconStepF at h
  cases hlook : lookupId R.eid (R.eid r) st.remaining with
  | some l =>
    rw [hlook] at h
    dsimp only at h
    split_ifs at h with h1 h2 h3 h4 h5 h6
    all_goals (injection h with h9; exact ⟨h9.symm, by assumption⟩)
  | none =>
    rw [hlook] at h
    dsimp only at h
    split_ifs at h with h1
    all_goals (injection h with h9; exact ⟨h9.symm, by assumption⟩)

theorem reconPostF_error_eq {failAt : Option Nat} {st : FSt α} {l : α} {stE : FSt α}
    (h : reconPostF failAt st l = Except.error stE) :
    stE = st ∧ failAt = some st.op := by
  unfold reconPostF at h
  split_ifs at h with h1
  injection h with h9
  exact ⟨h9.symm, h1⟩

theorem foldlM_error_op {β : Type} {n : Nat} (f : FSt α → β → Except (FSt α) (FSt α))
    (hf : ∀ (st : FSt α) (b : β) (stE : FSt α),
      f st b = Except.error stE → stE.op = n) :
    ∀ (bs : List β) (st stE : FSt α),
      List.foldlM f st bs = Except.error stE → stE.op = n := by
  intro bs
  induction bs with
  | nil =>
    intro st stE h
    exact Except.noConfusion h
  | cons b bs ih =>
    intro st stE h
    rw [List.foldlM_cons] at h
    cases hstep : f st b with
    | error e =>
      rw [hstep] at h
      have hred : (Except.error e >>= fun s => List.foldlM f s bs)
          = (Except.error e : Except (FSt α) (FSt α)) := rfl
      rw [hred] at h
      injection h with h9
      rw [← h9]
      exact hf st b e hstep
    | ok st1 =>
      rw [hstep] at h
      have hred : (Except.ok st1 >>= fun s => List.foldlM f s bs)
          = List.foldlM f st1 bs := rfl
      rw [hred] at h
      exact ih st1 stE h

theorem reconRunF_error_op (R : Recon α) [DecidableEq α]
    (locals remotes : List α) (now : Nat) (fresh : Nat → String) (k0 n : Nat)
    {stE : FSt α}
    (h : reconRunF R locals remotes now fresh k0 (some n) = Except.error stE) :
    stE.op = n := by
  unfold reconRunF at h
  split_ifs at h with h0 h1
  · injection h with h9
    rw [← h9]
    injection h0 with h0b
    exact h0b.symm
  · injection h with h9
    rw [← h9]
    injection h1 with h1b
    exact h1b.symm
  · have hstep : ∀ (st : FSt α) (b : α) (stE2 : FSt α),
        reconStepF R (some n) now fresh st b = Except.error stE2 → stE2.op = n := by
      intro st b stE2 hh
      obtain ⟨he, hsome⟩ := reconStepF_error_eq R hh
      injection hsome with h9
      rw [he]
      exact h9.symm
    have hpost : ∀ (st : FSt α) (b : α) (stE2 : FSt α),
        reconPostF (some n) st b = Except.error stE2 → stE2.op = n := by
      intro st b stE2 hh
      obtain ⟨he, hsome⟩ := reconPostF_error_eq hh
      injection hsome with h9
      rw [he]
      exact h9.symm
    cases hfold : remotes.foldlM (reconStepF R (some n) now fresh)
        ⟨locals, locals, [], [], 0, 0, k0, 2⟩ with
    | error e =>
      rw [hfold] at h
      have hred : ((Except.error e : Except (FSt α) (FSt α)) >>= fun st1 =>
          st1.remaining.foldlM (reconPostF (some n)) st1)
          = (Except.error e : Except (FSt α) (FSt α)) := rfl
      rw [hred] at h
      injection h with h9
      rw [← h9]
      exact foldlM_error_op _ hstep remotes _ e hfold
    | ok st1 =>
      rw [hfold] at h
      have hred : ((Except.ok st1 : Except (FSt α) (FSt α)) >>= fun s =>
          s.remaining.foldlM (reconPostF (some n)) s)
          = st1.remaining.foldlM (reconPostF (some n)) st1 := rfl
      rw [hred] at h
      exact foldlM_error_op _ hpost st1.remaining st1 stE h

/-- C8 (amended): when an individual storage or transport operation fails
during a session reconciler run, the run aborts at exactly that operation
(nothing later executes), the failing step applies nothing and rolls back
nothing (the error state is the accumulated state of the successful steps),
`sync_data` appends exactly one formatted error string for the phase and
sets `success = false` — but the synced and conflict counts the failed
phase contributes to the `SyncResult` are zero: the partial counts
accumulated before the failure are discarded with the error, not
reported. -/
theorem c8_failed_phase_contributes_zero :
    (∀ (locals remotes : List PomodoroSession) (now : Nat) (fresh : Nat → String)
        (k0 n : Nat) (stE : FSt PomodoroSession) (emsg : String)
        (tr : Except String (Nat × Nat)) (setr : Except String Unit) (nowS : Nat),
      reconRunF sessionRecon locals remotes now fresh k0 (some n) = Except.error stE →
      (stE.op = n
        ∧ (sync_data tr (sessionSyncOutcome
            (reconRunF sessionRecon locals remotes now fresh k0 (some n)) emsg)
            setr nowS).synced_sessions = 0
        ∧ (sync_data tr (sessionSyncOutcome
            (reconRunF sessionRecon locals remotes now fresh k0 (some n)) emsg)
            setr nowS).errors
          = (match tr with
              | Except.error e => ["Task sync error: " ++ e]
              | Except.ok _ => [])
            ++ ["Session sync error: " ++ emsg]
            ++ (match setr with
              | Except.error e => ["Settings sync error: " ++ e]
              | Except.ok _ => [])
        ∧ (sync_data tr (sessionSyncOutcome
            (reconRunF sessionRecon locals remotes now fresh k0 (some n)) emsg)
            setr nowS).success = false
        ∧ (sync_data tr (sessionSyncOutcome
            (reconRunF sessionRecon locals remotes now fresh k0 (some n)) emsg)
            setr nowS).conflicts
          = (match tr with
              | Except.ok p => p.2
              | Except.error _ => 0)))
    ∧ (∀ (failAt : Option Nat) (now : Nat) (fresh : Nat → String)
        (st : FSt PomodoroSession) (r : PomodoroSession) (stE : FSt PomodoroSession),
      reconStepF sessionRecon failAt now fresh st r = Except.error stE → stE = st) := by
  constructor
  · intro locals remotes now fresh k0 n stE emsg tr setr nowS h
    have hout : sessionSyncOutcome
        (reconRunF sessionRecon locals remotes now fresh k0 (some n)) emsg
        = Except.error emsg := by
      rw [h]
      rfl
    refine ⟨reconRunF_error_op sessionRecon locals remotes now fresh k0 n h, ?_, ?_, ?_, ?_⟩
    · rw [hout]
      rfl
    · rw [hout]
      rfl
    · rw [hout]
      cases tr <;> cases setr <;> rfl
    · rw [hout]
      rfl
  · intro failAt now fresh st r stE h
    exact (reconStepF_error_eq sessionRecon h).1

/-- C8 (counterexample): two remote-newer sessions, the second update
operation fails.  The aborted run had already applied one update — its
internal synced count is 1 and the first row is updated in the store, with
no rollback — yet the `SyncResult` reports `synced_sessions = 0`: the
partial count is **not** populated, refuting the claim's "partial counts are
still populated". -/
theorem c8_counterexample :
    reconRunF sessionRecon [mkSession "a" 0 none, mkSession "b" 0 none]
        [mkSession "a" 1 none, mkSession "b" 1 none] 7 (fun _ => "f") 0 (some 3)
      = Except.error
          ⟨[update_pomodoro_session (mkSession "a" 0 none)
              (sessionUpdateRequestOf (mkSession "a" 1 none)) 7,
            mkSession "b" 0 none],
            [mkSession "b" 0 none], [], [], 1, 0, 0, 3⟩
    ∧ (sync_data (Except.ok (4, 0))
        (sessionSyncOutcome
          (reconRunF sessionRecon [mkSession "a" 0 none, mkSession "b" 0 none]
            [mkSession "a" 1 none, mkSession "b" 1 none] 7 (fun _ => "f") 0 (some 3))
          "io failure")
        (Except.ok ()) 9).synced_sessions = 0
    ∧ (sync_data (Except.ok (4, 0))
        (sessionSyncOutcome
          (reconRunF sessionRecon [mkSession "a" 0 none, mkSession "b" 0 none]
            [mkSession "a" 1 none, mkSession "b" 1 none] 7 (fun _ => "f") 0 (some 3))
          "io failure")
        (Except.ok ()) 9).errors = ["Session sync error: io failure"]
    ∧ (sync_data (Except.ok (4, 0))
        (sessionSyncOutcome
          (reconRunF sessionRecon [mkSession "a" 0 none, mkSession "b" 0 none]
            [mkSession "a" 1 none, mkSession "b" 1 none] 7 (fun _ => "f") 0 (some 3))
          "io failure")
        (Except.ok ()) 9).success = false :=
  ⟨rfl, rfl, rfl, rfl⟩

theorem c8_witness :
    reconRunF sessionRecon [mkSession "a" 0 none]
        [mkSession "a" 1 none] 7 (fun _ => "f") 0 (some 2)
      = Except.error ⟨[mkSession "a" 0 none], [mkSession "a" 0 none], [], [], 0, 0, 0, 2⟩
    ∧ (sync_data (Except.ok (4, 2))
        (sessionSyncOutcome
          (reconRunF sessionRecon [mkSession "a" 0 none]
            [mkSession "a" 1 none] 7 (fun _ => "f") 0 (some 2))
          "boom")
        (Except.ok ()) 9).synced_sessions = 0
    ∧ (sync_data (Except.ok (4, 2))
        (sessionSyncOutcome
          (reconRunF sessionRecon [mkSession "a" 0 none]
            [mkSession "a" 1 none] 7 (fun _ => "f") 0 (some 2))
          "boom")
        (Except.ok ()) 9).success = false := by
  have hrun : reconRunF sessionRecon [mkSession "a" 0 none]
      [mkSession "a" 1 none] 7 (fun _ => "f") 0 (some 2)
      = Except.error ⟨[mkSession "a" 0 none], [mkSession "a" 0 none], [], [], 0, 0, 0, 2⟩ :=
    rfl
  have h := (c8_failed_phase_contributes_zero.1 [mkSession "a" 0 none]
    [mkSession "a" 1 none] 7 (fun _ => "f") 0 2
    ⟨[mkSession "a" 0 none], [mkSession "a" 0 none], [], [], 0, 0, 0, 2⟩ "boom"
    (Except.ok (4, 2)) (Except.ok ()) 9 hrun)
  exact ⟨hrun, h.2.1, h.2.2.2.1⟩

end Genie
